import Mathlib

/-!
Verification of the captcha image-rendering core (`image.go`) of
chappjc/captcha against its natural-language specification.

The Go code is shallowly embedded: Go `int` becomes `Int` (with Go's
truncated division written `goDiv`), Go `uint8` conversions become
`% 256` / `Int.emod 256`, Go `float64` arithmetic on the values reached
by the claims is modelled exactly over `ℚ` (the inputs are small
integers and ratios of such, so the rational model tracks the float
model wherever a claim looks), transcendental calls `sin(t·2π/period)`
and `cos(t·2π/period)` are abstracted as function parameters
`sinq cosq : ℚ → ℚ → ℚ` applied to `(period, t)`, and Go panics become
`Option.none` with the pipeline written in the `Option` monad.

The seeded PRNG (`siprng.go`) and the glyph table (`font.go`) are parts
of the repository that are not present under `src/`; they are modelled
from the spec (see the doc comments on `Rng` and `fontWidth`).
-/

namespace Captcha

/-- Go's integer division: truncation toward zero (`Int.tdiv`). -/
def goDiv (a b : Int) : Int := Int.tdiv a b

/-- Go's conversion `int(f)` of a nonnegative-or-negative float to an
integer truncates toward zero; on `ℚ` that is floor for nonnegative
values and ceiling for negative ones. -/
def qtrunc (q : ℚ) : Int := if 0 ≤ q then ⌊q⌋ else ⌈q⌉

/-- Go's conversion `uint8(v)` of a nonnegative integer: reduce mod 256. -/
def u8 (v : Int) : Nat := (Int.emod v 256).toNat

/-- Model of Go's `image.Paletted`: a `w × h` grid of palette indices
stored row-major in `pix` (index `y*w + x`), mirroring the `Pix` slice
with `Stride = w` and `Rect = (0,0)-(w,h)`.  (Negative dimensions,
where Go's `image.Rect` would canonicalize by swapping corners, are not
exercised by any claim.) -/
structure Paletted where
  w : Int
  h : Int
  pix : List Nat
deriving DecidableEq, Repr

/-- `image.NewPaletted` with rectangle `(0,0)-(w,h)`: a zeroed pixel grid. -/
def newPaletted (w h : Int) : Paletted :=
  ⟨w, h, List.replicate (w * h).toNat 0⟩

/-- Go `Paletted.ColorIndexAt`: out-of-bounds reads return palette
index 0 (`At` outside `Rect` yields the zero color / index 0). -/
def Paletted.colorIndexAt (m : Paletted) (x y : Int) : Nat :=
  if 0 ≤ x ∧ x < m.w ∧ 0 ≤ y ∧ y < m.h then
    m.pix.getD (y * m.w + x).toNat 0
  else 0

/-- Go `Paletted.SetColorIndex`: out-of-bounds writes are silently
dropped (`if !(image.Point{x, y}.In(p.Rect)) { return }`). -/
def Paletted.setColorIndex (m : Paletted) (x y : Int) (c : Nat) : Paletted :=
  if 0 ≤ x ∧ x < m.w ∧ 0 ≤ y ∧ y < m.h then
    { m with pix := m.pix.set (y * m.w + x).toNat c }
  else m

/-- Modelled from the spec: the repository's keyed deterministic PRNG
(`siprng.go`, absent from `src/`).  §3 SeededStream: "a keyed
deterministic generator state ... Mutated by every draw
(stream-advancing)".  The raw 64-bit draw sequence (SipHash of a
counter in the source) is abstracted as a function `stream` of the draw
counter; `ctr` is the number of draws already made. -/
structure Rng where
  stream : Nat → Nat
  ctr : Nat

/-- Modelled from the spec (§4.1): `nextIntBelow(n) -> int in [0,n)`;
"`n <= 0` is a contract violation" — the source (`siprng.Intn`) panics
there, modelled as `none`.  The in-range reduction of the raw draw is
modelled as `% n`. -/
def Rng.intn (r : Rng) (n : Int) : Option (Int × Rng) :=
  if n ≤ 0 then none
  else some (((r.stream r.ctr) % n.toNat : Nat), ⟨r.stream, r.ctr + 1⟩)

/-- Modelled from the spec (§4.1): `nextInt(lo, hi inclusive)`; the
source is `from + Intn(to + 1 - from)`, panicking (`none`) when
`to < from`. -/
def Rng.int (r : Rng) (lo hi : Int) : Option (Int × Rng) :=
  (r.intn (hi + 1 - lo)).map (fun p => (lo + p.1, p.2))

/-- Modelled from the spec (§4.1): a float draw in `[0,1)`; the source
is `float64(Int63()) / (1 << 63)`, modelled as a 63-bit raw draw scaled
into `ℚ`. -/
def Rng.float01 (r : Rng) : ℚ × Rng :=
  (((r.stream r.ctr % 2 ^ 63 : Nat) : ℚ) / ((2 : ℚ) ^ 63), ⟨r.stream, r.ctr + 1⟩)

/-- Modelled from the spec (§4.1): `nextFloat(lo, hi)`; the source is
`(to-from)*Float64() + from` (no bound check). -/
def Rng.float (r : Rng) (lo hi : ℚ) : ℚ × Rng :=
  ((hi - lo) * r.float01.1 + lo, r.float01.2)

/-- RGBA color with 8-bit channels, as Go's `color.RGBA`. -/
structure RGBA where
  r : Nat
  g : Nat
  b : Nat
  a : Nat
deriving DecidableEq, Repr

instance : Inhabited RGBA := ⟨⟨0, 0, 0, 0⟩⟩

/-- `min3` from `image.go`. -/
def min3 (x y z : Nat) : Nat :=
  let m := x
  let m := if y < m then y else m
  if z < m then z else m

/-- `max3` from `image.go`. -/
def max3 (x y z : Nat) : Nat :=
  let m := x
  let m := if y > m then y else m
  if z > m then z else m

/-- `randomBrightness` from `image.go`: a single signed delta
`n = Intn(max - maxc) - minc` added to all three channels; the `uint8`
conversions reduce mod 256.  `Intn` panics (`none`) when
`max - maxc ≤ 0`, i.e. when `maxc = max` (the early return requires
`maxc > max` strictly). -/
def randomBrightness (rng : Rng) (c : RGBA) (mx : Nat) : Option (RGBA × Rng) :=
  let minc := min3 c.r c.g c.b
  let maxc := max3 c.r c.g c.b
  if maxc > mx then some (c, rng)
  else do
    let (v, rng) ← rng.intn ((mx : Int) - (maxc : Int))
    let n : Int := v - (minc : Int)
    pure (⟨u8 ((c.r : Int) + n), u8 ((c.g : Int) + n), u8 ((c.b : Int) + n), c.a⟩, rng)

/-- `getRandomPalette` from `image.go`.  Go panics when
`circleCount < 1`: `make([]color.Color, circleCount+1)` rejects a
negative length and the assignment `p[1] = prim` needs length ≥ 2;
both panics are modelled as `none`.  Index 0 is the transparent color,
index 1 the primary (each channel `Intn(129)`, drawn R then G then B),
indices `2..circleCount` brightness variants of the primary. -/
def getRandomPalette (rng : Rng) (circleCount : Int) : Option (List RGBA × Rng) :=
  if circleCount < 1 then none
  else do
    let (r, rng) ← rng.intn 129
    let (g, rng) ← rng.intn 129
    let (b, rng) ← rng.intn 129
    let prim : RGBA := ⟨r.toNat, g.toNat, b.toNat, 0xFF⟩
    let (variants, rng) ← (List.range (circleCount - 1).toNat).foldlM
      (fun (acc : List RGBA × Rng) _ => do
        let (c, rng') ← randomBrightness acc.2 prim 255
        pure (acc.1 ++ [c], rng'))
      (([] : List RGBA), rng)
    pure (⟨0xFF, 0xFF, 0xFF, 0x00⟩ :: prim :: variants, rng)

/-- Modelled from the spec: the glyph table (`font.go`) is absent from
`src/`; §4.5 says "the glyph is a fixed-size monochrome bitmap".  The
cell width used by the sizer (`fontWidth`) is the upstream value. -/
def fontWidth : Nat := 11

/-- Modelled from the spec: glyph cell height (`font.go` absent from
`src/`), upstream value. -/
def fontHeight : Nat := 18

/-- Modelled from the spec: the bitmap value marking a foreground cell
(`font.go` absent from `src/`). -/
def blackChar : Nat := 1

/-- The tail of `calculateSizes`: from the (rational) cell width `nw`
and height `nh`, compute `(dotSize, numWidth, numHeight)` exactly as
the source does (`int` conversions truncate toward zero). -/
def sizesFrom (nw nh : ℚ) : Int × Int × Int :=
  let dotSize := qtrunc (nh / (fontHeight : ℚ))
  let dotSize := if dotSize < 1 then 1 else dotSize
  (dotSize, qtrunc nw - dotSize, qtrunc nh)

/-- `calculateSizes` from `image.go`, over `ℚ`.  `ncount` is
`len(digits)`, hence a `Nat`.  For `ncount = 0` the Go float division
`w / nc` yields `+Inf` when `w > 0` (so the `nh > h` branch is taken);
when `w ≤ 0` it yields `NaN`/`-Inf` and the later float→int conversion
is implementation-defined in Go, so that corner is modelled as `none`
(no claim reaches it). -/
def calculateSizes (width height : Int) (ncount : Nat) : Option (Int × Int × Int) :=
  let border := if width > height then goDiv height 5 else goDiv width 5
  let w : ℚ := ((width - border * 2 : Int) : ℚ)
  let h : ℚ := ((height - border * 2 : Int) : ℚ)
  let fw : ℚ := (fontWidth : ℚ) + 1
  let fh : ℚ := (fontHeight : ℚ)
  if ncount = 0 then
    if 0 < w then some (sizesFrom (fw / fh * h) h) else none
  else
    let nw := w / (ncount : ℚ)
    let nh := nw * fh / fw
    if nh > h then some (sizesFrom (fw / fh * h) h)
    else some (sizesFrom nw nh)

/-- `drawHorizLine` from `image.go`: set `(x, y)` for
`x = fromX, fromX+1, ..., toX`. -/
def Paletted.drawHorizLine (m : Paletted) (fromX toX y : Int) (c : Nat) : Paletted :=
  (List.range (toX + 1 - fromX).toNat).foldl
    (fun acc i => acc.setColorIndex (fromX + i) y c) m

/-- The `for xo < yo` loop of `drawCircle` (midpoint circle with span
filling).  The loop decreases the gap `yo - xo` by at least one per
iteration, so it is written with an explicit fuel equal to that gap
(`circleLoop` below passes exactly `(yo - xo).toNat`, which the guard
`xo < yo` never exhausts); structural recursion on the fuel keeps the
definition kernel-reducible. -/
def circleLoopF (x y : Int) (c : Nat) : Nat → Paletted → Int → Int → Int → Int → Int → Paletted
  | 0, m, _, _, _, _, _ => m
  | fuel + 1, m, f, dfx, dfy, xo, yo =>
    if xo < yo then
      let yo' := if f ≥ 0 then yo - 1 else yo
      let dfy' := if f ≥ 0 then dfy + 2 else dfy
      let f' := if f ≥ 0 then f + dfy' else f
      let xo' := xo + 1
      let dfx' := dfx + 2
      let f'' := f' + dfx'
      let m := m.drawHorizLine (x - xo') (x + xo') (y + yo') c
      let m := m.drawHorizLine (x - xo') (x + xo') (y - yo') c
      let m := m.drawHorizLine (x - yo') (x + yo') (y + xo') c
      let m := m.drawHorizLine (x - yo') (x + yo') (y - xo') c
      circleLoopF x y c fuel m f'' dfx' dfy' xo' yo'
    else m

/-- The `for xo < yo` loop of `drawCircle`, entered with its exact
iteration bound as fuel. -/
def circleLoop (x y : Int) (c : Nat) (m : Paletted) (f dfx dfy xo yo : Int) : Paletted :=
  circleLoopF x y c (yo - xo).toNat m f dfx dfy xo yo

/-- `drawCircle` from `image.go`: the two polar pixels, the equatorial
span, then the midpoint loop. -/
def Paletted.drawCircle (m : Paletted) (x y radius : Int) (c : Nat) : Paletted :=
  let m := m.setColorIndex x (y + radius) c
  let m := m.setColorIndex x (y - radius) c
  let m := m.drawHorizLine (x - radius) (x + radius) y c
  circleLoop x y c m (1 - radius) 1 (-2 * radius) 0 radius

/-- One iteration of the `fillWithCircles` loop: draws `colorIdx`, then
radius, then center x, then center y (Go evaluates the arguments of
`m.drawCircle(m.rng.Int(r, maxx-r), m.rng.Int(r, maxy-r), r, colorIdx)`
left to right), and stamps the circle.  `uint8(colorIdx)` reduces
mod 256. -/
def fillStep (n maxradius : Int) (acc : Paletted × Rng) : Option (Paletted × Rng) := do
  let (m, rng) := acc
  let (colorIdx, rng) ← rng.int 1 (n - 1)
  let (r, rng) ← rng.int 1 maxradius
  let (cx, rng) ← rng.int r (m.w - r)
  let (cy, rng) ← rng.int r (m.h - r)
  pure (m.drawCircle cx cy r (u8 colorIdx), rng)

/-- `fillWithCircles` from `image.go`: `n` iterations of `fillStep`
(`maxx`/`maxy` are the raster bounds). -/
def fillWithCircles (m : Paletted) (rng : Rng) (n maxradius : Int) :
    Option (Paletted × Rng) :=
  (List.range n.toNat).foldlM (fun acc _ => fillStep n maxradius acc) (m, rng)

/-- The parameter draws of one `fillWithCircles` iteration, without the
raster: `(centerX, centerY, radius, colorIdx)` in drawing order. -/
def fillDrawStep (w h n maxradius : Int) (acc : List (Int × Int × Int × Nat) × Rng) :
    Option (List (Int × Int × Int × Nat) × Rng) := do
  let (ds, rng) := acc
  let (colorIdx, rng) ← rng.int 1 (n - 1)
  let (r, rng) ← rng.int 1 maxradius
  let (cx, rng) ← rng.int r (w - r)
  let (cy, rng) ← rng.int r (h - r)
  pure (ds ++ [(cx, cy, r, u8 colorIdx)], rng)

/-- The full trace of circle parameters drawn by `fillWithCircles` on a
`w × h` raster. -/
def fillCirclesDraws (w h : Int) (rng : Rng) (n maxradius : Int) :
    Option (List (Int × Int × Int × Nat) × Rng) :=
  (List.range n.toNat).foldlM (fun acc _ => fillDrawStep w h n maxradius acc) ([], rng)

/-- The vertical-anchor jitter draw of `drawDigit`: the source computes
`r := m.dotSize / 2` and draws `m.rng.Int(-r, r)`. -/
def digitJitter (rng : Rng) (dotSize : Int) : Option (Int × Rng) :=
  rng.int (-(goDiv dotSize 2)) (goDiv dotSize 2)

/-- A second definition following the spec's words, for comparison with
the source's `digitJitter`: "Vertical anchor is jittered once per glyph
by a uniform integer offset in `[-dotRadius, dotRadius]`" (spec §4.5),
i.e. a draw of `Int(-dotRadius, dotRadius)`. -/
def digitJitterSpec (rng : Rng) (dotSize : Int) : Option (Int × Rng) :=
  rng.int (-dotSize) dotSize

/-- The inner (`xo`) loop of one `drawDigit` bitmap row: each
foreground cell stamps a disc of radius `r` with palette index 1. -/
def digitRow (digit : List Nat) (dotSize r x y : Int) (yo : Nat) (m : Paletted) : Paletted :=
  (List.range fontWidth).foldl
    (fun acc (xo : Nat) =>
      if digit.getD (yo * fontWidth + xo) 0 = blackChar then
        acc.drawCircle (x + (xo : Int) * dotSize) (y + (yo : Int) * dotSize) r 1
      else acc)
    m

/-- `drawDigit` from `image.go`: one skew draw, one jitter draw, then
per row the cells are stamped with the current truncated skew
accumulator `x = int(xs)` (updated after each row, so row 0 uses the
original anchor). -/
def drawDigit (digit : List Nat) (dotSize : Int) (m : Paletted) (rng : Rng)
    (x y : Int) (maxSkew : ℚ) : Option (Paletted × Rng) := do
  let (skf, rng) := rng.float (-maxSkew) maxSkew
  let r := goDiv dotSize 2
  let (j, rng) ← digitJitter rng dotSize
  let y := y + j
  let st := (List.range fontHeight).foldl
    (fun (st : Paletted × Int × ℚ) (yo : Nat) =>
      let m' := digitRow digit dotSize r st.2.1 y yo st.1
      let xs := st.2.2 + skf
      (m', qtrunc xs, xs))
    (m, x, (x : ℚ))
  pure (st.1, rng)

/-- The foreground-cell centers of one bitmap row of `drawDigit`, in
stamping order. -/
def digitRowCells (digit : List Nat) (dotSize x y : Int) (yo : Nat) : List (Int × Int) :=
  (List.range fontWidth).foldl
    (fun acc (xo : Nat) =>
      if digit.getD (yo * fontWidth + xo) 0 = blackChar then
        acc ++ [(x + (xo : Int) * dotSize, y + (yo : Int) * dotSize)]
      else acc)
    []

/-- All foreground-cell centers stamped by `drawDigit` for anchor
`(x, y)` (already jitter-adjusted) and skew `skf`, in stamping order. -/
def drawDigitCells (digit : List Nat) (dotSize x y : Int) (skf : ℚ) : List (Int × Int) :=
  ((List.range fontHeight).foldl
    (fun (st : List (Int × Int) × Int × ℚ) (yo : Nat) =>
      let cs := st.1 ++ digitRowCells digit dotSize st.2.1 y yo
      let xs := st.2.2 + skf
      (cs, qtrunc xs, xs))
    ([], x, (x : ℚ))).1

/-- One column of `strikeThrough`: the horizontal offset `xo` is
computed from the fixed strike center `y`, the vertical offset `yo`
from the column `x`; `r0` stacked discs of radius `r/2` and palette
index 1 are stamped, the `yn`-th one `yn * dotSize` further down. -/
def strikeColumn (sinq cosq : ℚ → ℚ → ℚ) (dotSize y : Int) (amplitude period : ℚ)
    (acc : Paletted × Rng) (xn : Nat) : Option (Paletted × Rng) := do
  let (m, rng) := acc
  let x : Int := xn
  let xo := amplitude * cosq period ((y : Int) : ℚ)
  let yo := amplitude * sinq period ((x : Int) : ℚ)
  let (r0, rng) ← rng.int 0 (goDiv (2 * dotSize) 3)
  (List.range r0.toNat).foldlM
    (fun (acc2 : Paletted × Rng) (yn : Nat) => do
      let (m2, rng2) := acc2
      let (r, rng2) ← rng2.int 0 dotSize
      pure (m2.drawCircle (x + qtrunc xo) (y + qtrunc yo + (yn : Int) * dotSize)
        (goDiv r 2) 1, rng2))
    (m, rng)

/-- `strikeThrough` from `image.go`: the strike center `y` is drawn in
`[maxy/3, maxy - maxy/3]`, then amplitude and period, then every
canvas column is processed; `sin(t·2π/period)` and `cos(t·2π/period)`
appear as `sinq period t` / `cosq period t`. -/
def strikeThrough (sinq cosq : ℚ → ℚ → ℚ) (dotSize : Int) (m : Paletted) (rng : Rng)
    (ampMin ampMax perMin perMax : ℚ) : Option (Paletted × Rng) := do
  let maxy := m.h
  let (y, rng) ← rng.int (goDiv maxy 3) (maxy - goDiv maxy 3)
  let (amplitude, rng) := rng.float ampMin ampMax
  let (period, rng) := rng.float perMin perMax
  (List.range m.w.toNat).foldlM (strikeColumn sinq cosq dotSize y amplitude period) (m, rng)

/-- The per-column disc-radius draws of one `strikeThrough` column,
without the raster. -/
def strikeColumnDraws (dotSize : Int) (acc : List (List Int) × Rng) (_xn : Nat) :
    Option (List (List Int) × Rng) := do
  let (cols, rng) := acc
  let (r0, rng) ← rng.int 0 (goDiv (2 * dotSize) 3)
  let (rs, rng) ← (List.range r0.toNat).foldlM
    (fun (a : List Int × Rng) _ => do
      let (r, rng2) ← a.2.int 0 dotSize
      pure (a.1 ++ [r], rng2))
    (([] : List Int), rng)
  pure (cols ++ [rs], rng)

/-- The full draw trace of `strikeThrough` on a `w × maxy` raster:
strike center, amplitude, period, and per column the list of raw disc
radii drawn. -/
def strikeDraws (dotSize w maxy : Int) (rng : Rng) (ampMin ampMax perMin perMax : ℚ) :
    Option (Int × ℚ × ℚ × List (List Int) × Rng) := do
  let (y, rng) ← rng.int (goDiv maxy 3) (maxy - goDiv maxy 3)
  let (amplitude, rng) := rng.float ampMin ampMax
  let (period, rng) := rng.float perMin perMax
  let (cols, rng) ← (List.range w.toNat).foldlM (strikeColumnDraws dotSize) ([], rng)
  pure (y, amplitude, period, cols, rng)

/-- `distort` from `image.go`: a fresh zeroed grid is allocated and
every destination pixel `(x, y)` is set to the source raster sampled at
`(x + int(amp·sin(y·dx)), y + int(amp·cos(x·dx)))`, reading
out-of-bounds samples as index 0 via `colorIndexAt`. -/
def distort (sinq cosq : ℚ → ℚ → ℚ) (m : Paletted) (amplude period : ℚ) : Paletted :=
  (List.range m.w.toNat).foldl
    (fun acc (xn : Nat) =>
      (List.range m.h.toNat).foldl
        (fun acc2 (yn : Nat) =>
          acc2.setColorIndex (xn : Int) (yn : Int)
            (m.colorIndexAt
              ((xn : Int) + qtrunc (amplude * sinq period ((yn : Int) : ℚ)))
              ((yn : Int) + qtrunc (amplude * cosq period ((xn : Int) : ℚ)))))
        acc)
    (newPaletted m.w m.h)

/-- Modelled from the spec: the seed-purpose tag mixed into the seed
derivation (`random.go`, absent from `src/`); its concrete value is
irrelevant to the claims. -/
def imageSeedPurpose : Nat := 1

/-- `WarpBounds` from `image.go`. -/
structure WarpBounds where
  ampMin : ℚ
  ampMax : ℚ
  periodMin : ℚ
  periodMax : ℚ

/-- `DistortionOpts` from `image.go`. -/
structure DistortionOpts where
  circleCount : Int
  strikeCount : Int
  maxSkew : ℚ
  canvasWarp : WarpBounds
  strikeWarp : WarpBounds

/-- `defaultCanvasWarp` from `image.go`. -/
def defaultCanvasWarp : WarpBounds := ⟨5, 10, 100, 200⟩

/-- `defaultStrikeWarp` from `image.go`. -/
def defaultStrikeWarp : WarpBounds := ⟨5, 20, 80, 180⟩

/-- `defaultDistortionOpts` from `image.go` (`defaultCircleCount = 20`,
`defaultStrikeCount = 1`, `defaultMaxSkew = 0.7`; the float literal
`0.7` is modelled by the rational `7/10`, a value no claim inspects). -/
def defaultDistortionOpts : DistortionOpts :=
  ⟨20, 1, 7 / 10, defaultCanvasWarp, defaultStrikeWarp⟩

/-- `NewImage` from `image.go`, returning the finished raster and the
palette.  `seedFn` is the seed derivation (modelled from the spec:
`deriveSeed` in `random.go` is absent from `src/`; §3 says the stream
is "initialized once per render from a seed derived by a one-way
mixing function over (purpose tag, identifier, digits)"), mapped
directly to the raw draw stream it induces.  Every Go panic on the
pipeline (a bound violation in a stream draw, a degenerate palette
allocation, the implementation-defined float corner of
`calculateSizes`) is `none`. -/
def NewImage (sinq cosq : ℚ → ℚ → ℚ) (font : Nat → List Nat)
    (seedFn : Nat → String → List Nat → Nat → Nat)
    (id : String) (digits : List Nat) (width height : Int)
    (optsIn : Option DistortionOpts) : Option (Paletted × List RGBA) := do
  let opts := optsIn.getD defaultDistortionOpts
  let rng : Rng := ⟨seedFn imageSeedPurpose id digits, 0⟩
  let (palette, rng) ← getRandomPalette rng opts.circleCount
  let m := newPaletted width height
  let sz ← calculateSizes width height digits.length
  let (dotSize, numWidth, numHeight) := sz
  let maxx := width - (numWidth + dotSize) * (digits.length : Int) - dotSize
  let maxy := height - numHeight - dotSize * 2
  let border := if width > height then goDiv height 6 else goDiv width 6
  let (x, rng) ← rng.int border (maxx - border)
  let (y, rng) ← rng.int border (maxy - border)
  let st ← digits.foldlM
    (fun (st : Paletted × Int × Rng) n => do
      let (m2, rng2) ← drawDigit (font n) dotSize st.1 st.2.2 st.2.1 y opts.maxSkew
      pure (m2, st.2.1 + numWidth + dotSize, rng2))
    (m, x, rng)
  let (m, _, rng) := st
  let st2 ← (List.range opts.strikeCount.toNat).foldlM
    (fun (st2 : Paletted × Rng) _ =>
      strikeThrough sinq cosq dotSize st2.1 st2.2 opts.strikeWarp.ampMin
        opts.strikeWarp.ampMax opts.strikeWarp.periodMin opts.strikeWarp.periodMax)
    (m, rng)
  let (m, rng) := st2
  let (amp, rng) := rng.float opts.canvasWarp.ampMin opts.canvasWarp.ampMax
  let (per, rng) := rng.float opts.canvasWarp.periodMin opts.canvasWarp.periodMax
  let m := distort sinq cosq m amp per
  let (m, _) ← fillWithCircles m rng opts.circleCount dotSize
  pure (m, palette)

/-- The pixel grid of a finished render (`[]` when the render aborts);
a convenience projection for stating raster invariants. -/
def pixOf (o : Option (Paletted × List RGBA)) : List Nat :=
  (o.map fun p => p.1.pix).getD []

/-- Well-formedness of a raster: nonnegative dimensions and a pixel
list of exactly `w*h` entries, as `image.NewPaletted` guarantees. -/
def Paletted.Wf (m : Paletted) : Prop :=
  0 ≤ m.w ∧ 0 ≤ m.h ∧ m.pix.length = (m.w * m.h).toNat

theorem wf_newPaletted {w h : Int} (hw : 0 ≤ w) (hh : 0 ≤ h) : (newPaletted w h).Wf :=
  ⟨hw, hh, List.length_replicate _ _⟩

theorem newPaletted_w (w h : Int) : (newPaletted w h).w = w := rfl

theorem newPaletted_h (w h : Int) : (newPaletted w h).h = h := rfl

theorem colorIndexAt_newPaletted (w h : Int) (x y : Int) :
    (newPaletted w h).colorIndexAt x y = 0 := by
  unfold Paletted.colorIndexAt newPaletted
  split
  · rw [List.getD_eq_getElem?_getD, List.getElem?_replicate]
    split <;> rfl
  · rfl

theorem setColorIndex_w (m : Paletted) (x y : Int) (c : Nat) :
    (m.setColorIndex x y c).w = m.w := by
  unfold Paletted.setColorIndex; split <;> rfl

theorem setColorIndex_h (m : Paletted) (x y : Int) (c : Nat) :
    (m.setColorIndex x y c).h = m.h := by
  unfold Paletted.setColorIndex; split <;> rfl

theorem setColorIndex_pix_length (m : Paletted) (x y : Int) (c : Nat) :
    (m.setColorIndex x y c).pix.length = m.pix.length := by
  unfold Paletted.setColorIndex; split <;> simp

theorem setColorIndex_wf {m : Paletted} (hm : m.Wf) (x y : Int) (c : Nat) :
    (m.setColorIndex x y c).Wf := by
  obtain ⟨h1, h2, h3⟩ := hm
  exact ⟨by rw [setColorIndex_w]; exact h1, by rw [setColorIndex_h]; exact h2,
    by rw [setColorIndex_pix_length, setColorIndex_w, setColorIndex_h]; exact h3⟩

theorem cellIndex_inj {w x y x' y' : Int} (hx : 0 ≤ x) (hxw : x < w)
    (hx' : 0 ≤ x') (hxw' : x' < w) (heq : y * w + x = y' * w + x') : x = x' ∧ y = y' := by
  have hw : 0 < w := lt_of_le_of_lt hx hxw
  have hy : y = y' := by
    rcases lt_trichotomy y y' with h | h | h
    · exfalso
      have h1 : y + 1 ≤ y' := h
      have h2 : (y + 1) * w ≤ y' * w := mul_le_mul_of_nonneg_right h1 (le_of_lt hw)
      nlinarith
    · exact h
    · exfalso
      have h1 : y' + 1 ≤ y := h
      have h2 : (y' + 1) * w ≤ y * w := mul_le_mul_of_nonneg_right h1 (le_of_lt hw)
      nlinarith
  refine ⟨?_, hy⟩
  subst hy
  omega

theorem cellIndex_lt {w h x y : Int} (hx : 0 ≤ x) (hxw : x < w)
    (_hy : 0 ≤ y) (hyh : y < h) : y * w + x < w * h := by
  have h1 : y + 1 ≤ h := hyh
  have h2 : (y + 1) * w ≤ h * w :=
    mul_le_mul_of_nonneg_right h1 (le_trans hx (le_of_lt hxw))
  nlinarith

theorem colorIndexAt_set {m : Paletted} (hm : m.Wf) (x y : Int) (c : Nat) (x' y' : Int) :
    (m.setColorIndex x y c).colorIndexAt x' y' =
      if x' = x ∧ y' = y ∧ 0 ≤ x ∧ x < m.w ∧ 0 ≤ y ∧ y < m.h then c
      else m.colorIndexAt x' y' := by
  obtain ⟨hw0, hh0, hlen⟩ := hm
  unfold Paletted.setColorIndex Paletted.colorIndexAt
  by_cases hin : 0 ≤ x ∧ x < m.w ∧ 0 ≤ y ∧ y < m.h
  · rw [if_pos hin]
    simp only
    by_cases hin' : 0 ≤ x' ∧ x' < m.w ∧ 0 ≤ y' ∧ y' < m.h
    · rw [if_pos hin', if_pos hin']
      by_cases hpt : x' = x ∧ y' = y
      · obtain ⟨hpx, hpy⟩ := hpt
        subst hpx; subst hpy
        rw [if_pos ⟨rfl, rfl, hin⟩]
        have hidx : (y' * m.w + x').toNat < m.pix.length := by
          rw [hlen]
          have := cellIndex_lt hin'.1 hin'.2.1 hin'.2.2.1 hin'.2.2.2
          have hg : 0 ≤ y' * m.w := mul_nonneg hin'.2.2.1 hw0
          omega
        simp [List.getD_eq_getElem?_getD, List.getElem?_set_self hidx]
      · rw [if_neg (by tauto)]
        have hne : (y * m.w + x).toNat ≠ (y' * m.w + x').toNat := by
          intro hcontra
          have h1 : y * m.w + x = y' * m.w + x' := by
            have := cellIndex_lt hin.1 hin.2.1 hin.2.2.1 hin.2.2.2
            have := cellIndex_lt hin'.1 hin'.2.1 hin'.2.2.1 hin'.2.2.2
            have hg1 : 0 ≤ y * m.w := mul_nonneg hin.2.2.1 hw0
            have hg2 : 0 ≤ y' * m.w := mul_nonneg hin'.2.2.1 hw0
            omega
          have h2 := cellIndex_inj hin.1 hin.2.1 hin'.1 hin'.2.1 h1
          exact hpt ⟨h2.1.symm, h2.2.symm⟩
        simp [List.getD_eq_getElem?_getD, List.getElem?_set_ne hne]
    · have hne2 : ¬(x' = x ∧ y' = y ∧ 0 ≤ x ∧ x < m.w ∧ 0 ≤ y ∧ y < m.h) := by
        rintro ⟨rfl, rfl, hb⟩
        exact hin' hb
      rw [if_neg hin', if_neg hin', if_neg hne2]
  · have hne3 : ¬(x' = x ∧ y' = y ∧ 0 ≤ x ∧ x < m.w ∧ 0 ≤ y ∧ y < m.h) := by
      rintro ⟨_, _, hb⟩
      exact hin hb
    rw [if_neg hin, if_neg hne3]

theorem foldl_preserve {α : Type} {β : Type} (P : α → Prop) (f : α → β → α)
    (l : List β) (a : α) (h0 : P a) (hstep : ∀ x b, P x → P (f x b)) :
    P (l.foldl f a) := by
  induction l generalizing a with
  | nil => exact h0
  | cons b t ih => exact ih _ (hstep _ _ h0)

theorem foldlM_option_preserve {α : Type} {β : Type} (P : α → Prop) (f : α → β → Option α)
    (l : List β) (a : α) (h0 : P a)
    (hstep : ∀ x b x', P x → f x b = some x' → P x') :
    ∀ r, l.foldlM f a = some r → P r := by
  induction l generalizing a with
  | nil =>
    intro r hr
    simp only [List.foldlM] at hr
    cases hr
    exact h0
  | cons b t ih =>
    intro r hr
    simp only [List.foldlM_cons, Option.bind_eq_bind, Option.bind_eq_some] at hr
    obtain ⟨a', ha', hrest⟩ := hr
    exact ih a' (hstep a b a' h0 ha') r hrest

/-- Drawing never changes a raster's dimensions or pixel count. -/
def sameShape (m m' : Paletted) : Prop :=
  m'.w = m.w ∧ m'.h = m.h ∧ m'.pix.length = m.pix.length

theorem sameShape_refl (m : Paletted) : sameShape m m := ⟨rfl, rfl, rfl⟩

theorem sameShape_trans {a b c : Paletted} (h1 : sameShape a b) (h2 : sameShape b c) :
    sameShape a c :=
  ⟨h2.1.trans h1.1, h2.2.1.trans h1.2.1, h2.2.2.trans h1.2.2⟩

theorem sameShape_set (m : Paletted) (x y : Int) (c : Nat) :
    sameShape m (m.setColorIndex x y c) :=
  ⟨setColorIndex_w m x y c, setColorIndex_h m x y c, setColorIndex_pix_length m x y c⟩

theorem sameShape_wf {m m' : Paletted} (hs : sameShape m m') (hm : m.Wf) : m'.Wf := by
  obtain ⟨h1, h2, h3⟩ := hs
  obtain ⟨g1, g2, g3⟩ := hm
  exact ⟨h1 ▸ g1, h2 ▸ g2, by rw [h3, h1, h2]; exact g3⟩

theorem sameShape_drawHorizLine (m : Paletted) (fromX toX y : Int) (c : Nat) :
    sameShape m (m.drawHorizLine fromX toX y c) := by
  unfold Paletted.drawHorizLine
  exact foldl_preserve (sameShape m) _ _ _ (sameShape_refl m)
    (fun x b hx => sameShape_trans hx (sameShape_set x _ _ _))

theorem sameShape_circleLoopF (x y : Int) (c : Nat) (fuel : Nat) (m : Paletted)
    (f dfx dfy xo yo : Int) :
    sameShape m (circleLoopF x y c fuel m f dfx dfy xo yo) := by
  induction fuel generalizing m f dfx dfy xo yo with
  | zero => exact sameShape_refl m
  | succ n ih =>
    show sameShape m (circleLoopF x y c (n + 1) m f dfx dfy xo yo)
    rw [circleLoopF]
    split
    · exact sameShape_trans (sameShape_trans (sameShape_trans (sameShape_trans
        (sameShape_drawHorizLine _ _ _ _ _) (sameShape_drawHorizLine _ _ _ _ _))
        (sameShape_drawHorizLine _ _ _ _ _)) (sameShape_drawHorizLine _ _ _ _ _)) (ih _ _ _ _ _ _)
    · exact sameShape_refl m

theorem sameShape_drawCircle (m : Paletted) (x y radius : Int) (c : Nat) :
    sameShape m (m.drawCircle x y radius c) := by
  unfold Paletted.drawCircle circleLoop
  exact sameShape_trans (sameShape_trans (sameShape_trans
    (sameShape_set _ _ _ _) (sameShape_set _ _ _ _))
    (sameShape_drawHorizLine _ _ _ _ _)) (sameShape_circleLoopF _ _ _ _ _ _ _ _ _ _)

/-- All pixel values of a raster are bounded by `k`. -/
def pixBounded (k : Nat) (m : Paletted) : Prop := ∀ p ∈ m.pix, p ≤ k

theorem pixBounded_set {k : Nat} {m : Paletted} (hm : pixBounded k m) {c : Nat}
    (hc : c ≤ k) (x y : Int) : pixBounded k (m.setColorIndex x y c) := by
  unfold Paletted.setColorIndex
  split
  · intro p hp
    rcases List.mem_or_eq_of_mem_set hp with h | h
    · exact hm p h
    · exact h ▸ hc
  · exact hm

theorem pixBounded_drawHorizLine {k : Nat} {m : Paletted} (hm : pixBounded k m) {c : Nat}
    (hc : c ≤ k) (fromX toX y : Int) : pixBounded k (m.drawHorizLine fromX toX y c) := by
  unfold Paletted.drawHorizLine
  exact foldl_preserve (pixBounded k) _ _ _ hm (fun x b hx => pixBounded_set hx hc _ _)

theorem pixBounded_circleLoopF {k : Nat} {c : Nat} (hc : c ≤ k) (x y : Int) (fuel : Nat)
    {m : Paletted} (hm : pixBounded k m) (f dfx dfy xo yo : Int) :
    pixBounded k (circleLoopF x y c fuel m f dfx dfy xo yo) := by
  induction fuel generalizing m f dfx dfy xo yo with
  | zero => exact hm
  | succ n ih =>
    rw [circleLoopF]
    split
    · exact ih (pixBounded_drawHorizLine (pixBounded_drawHorizLine
        (pixBounded_drawHorizLine (pixBounded_drawHorizLine hm hc _ _ _) hc _ _ _)
        hc _ _ _) hc _ _ _) _ _ _ _ _
    · exact hm

theorem pixBounded_drawCircle {k : Nat} {m : Paletted} (hm : pixBounded k m) {c : Nat}
    (hc : c ≤ k) (x y radius : Int) : pixBounded k (m.drawCircle x y radius c) := by
  unfold Paletted.drawCircle circleLoop
  exact pixBounded_circleLoopF hc _ _ _
    (pixBounded_drawHorizLine (pixBounded_set (pixBounded_set hm hc _ _) hc _ _) hc _ _ _) _ _ _ _ _

theorem pixBounded_newPaletted (k : Nat) (w h : Int) : pixBounded k (newPaletted w h) := by
  intro p hp
  rcases List.eq_of_mem_replicate hp with rfl
  exact Nat.zero_le k

theorem colFold_colorIndexAt (g : Nat → Nat → Nat) (xn : Nat) (k : Nat)
    (a : Paletted) (ha : a.Wf) (hx : (xn : Int) < a.w) (hk : (k : Int) ≤ a.h)
    (x' y' : Int) :
    ((List.range k).foldl (fun acc (yn : Nat) =>
        acc.setColorIndex (xn : Int) (yn : Int) (g xn yn)) a).colorIndexAt x' y'
      = if x' = (xn : Int) ∧ 0 ≤ y' ∧ y' < (k : Int) then g xn y'.toNat
        else a.colorIndexAt x' y' := by
  induction k with
  | zero =>
    have hcond : ¬(x' = (xn : Int) ∧ 0 ≤ y' ∧ y' < ((0 : Nat) : Int)) := by
      rintro ⟨_, h1, h2⟩; omega
    rw [if_neg hcond]
    rfl
  | succ n ih =>
    rw [List.range_succ, List.foldl_append]
    have hshape : sameShape a ((List.range n).foldl
        (fun acc (yn : Nat) => acc.setColorIndex (xn : Int) (yn : Int) (g xn yn)) a) :=
      foldl_preserve (sameShape a) _ _ _ (sameShape_refl a)
        (fun x b hx => sameShape_trans hx (sameShape_set x _ _ _))
    have hwf : ((List.range n).foldl
        (fun acc (yn : Nat) => acc.setColorIndex (xn : Int) (yn : Int) (g xn yn)) a).Wf :=
      sameShape_wf hshape ha
    simp only [List.foldl_cons, List.foldl_nil]
    rw [colorIndexAt_set hwf, hshape.1, hshape.2.1]
    have hn' : ((n : Nat) : Int) ≤ a.h := by
      have := hk; omega
    rw [ih hn']
    by_cases h1 : x' = (xn : Int) ∧ y' = ((n : Nat) : Int)
    · have hc1 : x' = (xn : Int) ∧ y' = ((n : Nat) : Int) ∧ 0 ≤ (xn : Int) ∧ (xn : Int) < a.w ∧
          0 ≤ ((n : Nat) : Int) ∧ ((n : Nat) : Int) < a.h := by
        refine ⟨h1.1, h1.2, by omega, hx, by omega, by omega⟩
      rw [if_pos hc1]
      have hc2 : x' = (xn : Int) ∧ 0 ≤ y' ∧ y' < ((n + 1 : Nat) : Int) := by
        refine ⟨h1.1, by omega, by omega⟩
      rw [if_pos hc2]
      have : y'.toNat = n := by omega
      rw [this]
    · have hc1 : ¬(x' = (xn : Int) ∧ y' = ((n : Nat) : Int) ∧ 0 ≤ (xn : Int) ∧
          (xn : Int) < a.w ∧ 0 ≤ ((n : Nat) : Int) ∧ ((n : Nat) : Int) < a.h) := by
        rintro ⟨ha1, ha2, _⟩; exact h1 ⟨ha1, ha2⟩
      rw [if_neg hc1]
      by_cases h2 : x' = (xn : Int) ∧ 0 ≤ y' ∧ y' < ((n : Nat) : Int)
      · rw [if_pos h2, if_pos ⟨h2.1, h2.2.1, by omega⟩]
      · rw [if_neg h2]
        by_cases h3 : x' = (xn : Int) ∧ 0 ≤ y' ∧ y' < ((n + 1 : Nat) : Int)
        · exfalso
          have : y' = ((n : Nat) : Int) := by
            rcases h3 with ⟨hh1, hh2, hh3⟩
            by_contra hne
            exact h2 ⟨hh1, hh2, by omega⟩
          exact h1 ⟨h3.1, this⟩
        · rw [if_neg h3]

theorem rowFold_colorIndexAt (g : Nat → Nat → Nat) (wn hn : Nat)
    (a : Paletted) (ha : a.Wf) (hw : (wn : Int) ≤ a.w) (hh : (hn : Int) ≤ a.h)
    (x' y' : Int) :
    ((List.range wn).foldl (fun acc (xn : Nat) =>
        (List.range hn).foldl (fun acc2 (yn : Nat) =>
          acc2.setColorIndex (xn : Int) (yn : Int) (g xn yn)) acc)
      a).colorIndexAt x' y'
      = if 0 ≤ x' ∧ x' < (wn : Int) ∧ 0 ≤ y' ∧ y' < (hn : Int) then g x'.toNat y'.toNat
        else a.colorIndexAt x' y' := by
  induction wn with
  | zero =>
    have hcond : ¬(0 ≤ x' ∧ x' < ((0 : Nat) : Int) ∧ 0 ≤ y' ∧ y' < (hn : Int)) := by
      rintro ⟨h1, h2, _⟩; omega
    rw [if_neg hcond]
    rfl
  | succ n ih =>
    rw [List.range_succ, List.foldl_append]
    have hshape : sameShape a ((List.range n).foldl (fun acc (xn : Nat) =>
        (List.range hn).foldl (fun acc2 (yn : Nat) =>
          acc2.setColorIndex (xn : Int) (yn : Int) (g xn yn)) acc) a) :=
      foldl_preserve (sameShape a) _ _ _ (sameShape_refl a)
        (fun x b hx => sameShape_trans hx
          (foldl_preserve (sameShape x) _ _ _ (sameShape_refl x)
            (fun u v hu => sameShape_trans hu (sameShape_set u _ _ _))))
    have hwf : ((List.range n).foldl (fun acc (xn : Nat) =>
        (List.range hn).foldl (fun acc2 (yn : Nat) =>
          acc2.setColorIndex (xn : Int) (yn : Int) (g xn yn)) acc) a).Wf :=
      sameShape_wf hshape ha
    simp only [List.foldl_cons, List.foldl_nil]
    rw [colFold_colorIndexAt g n hn _ hwf (by rw [hshape.1]; omega) (by rw [hshape.2.1]; exact hh)]
    rw [ih (by omega)]
    by_cases h1 : x' = ((n : Nat) : Int) ∧ 0 ≤ y' ∧ y' < (hn : Int)
    · rw [if_pos h1, if_pos ⟨by omega, by omega, h1.2⟩]
      have : x'.toNat = n := by omega
      rw [this]
    · rw [if_neg h1]
      by_cases h2 : 0 ≤ x' ∧ x' < ((n : Nat) : Int) ∧ 0 ≤ y' ∧ y' < (hn : Int)
      · rw [if_pos h2, if_pos ⟨h2.1, by omega, h2.2.2⟩]
      · rw [if_neg h2]
        by_cases h3 : 0 ≤ x' ∧ x' < ((n + 1 : Nat) : Int) ∧ 0 ≤ y' ∧ y' < (hn : Int)
        · exfalso
          have : x' = ((n : Nat) : Int) := by
            rcases h3 with ⟨hh1, hh2, hh3⟩
            by_contra hne
            exact h2 ⟨hh1, by omega, hh3⟩
          exact h1 ⟨this, h3.2.2⟩
        · rw [if_neg h3]

theorem sameShape_distort_base (sinq cosq : ℚ → ℚ → ℚ) (m : Paletted) (amp per : ℚ) :
    sameShape (newPaletted m.w m.h) (distort sinq cosq m amp per) := by
  unfold distort
  exact foldl_preserve (sameShape (newPaletted m.w m.h)) _ _ _
    (sameShape_refl _)
    (fun x b hx => sameShape_trans hx
      (foldl_preserve (sameShape x) _ _ _ (sameShape_refl x)
        (fun u v hu => sameShape_trans hu (sameShape_set u _ _ _))))

theorem distort_w (sinq cosq : ℚ → ℚ → ℚ) (m : Paletted) (amp per : ℚ) :
    (distort sinq cosq m amp per).w = m.w :=
  (sameShape_distort_base sinq cosq m amp per).1

theorem distort_h (sinq cosq : ℚ → ℚ → ℚ) (m : Paletted) (amp per : ℚ) :
    (distort sinq cosq m amp per).h = m.h :=
  (sameShape_distort_base sinq cosq m amp per).2.1

theorem distort_colorIndexAt (sinq cosq : ℚ → ℚ → ℚ) (m : Paletted) (amp per : ℚ)
    (x y : Int) :
    (distort sinq cosq m amp per).colorIndexAt x y =
      if 0 ≤ x ∧ x < m.w ∧ 0 ≤ y ∧ y < m.h then
        m.colorIndexAt (x + qtrunc (amp * sinq per (y : ℚ))) (y + qtrunc (amp * cosq per (x : ℚ)))
      else 0 := by
  by_cases hin : 0 ≤ x ∧ x < m.w ∧ 0 ≤ y ∧ y < m.h
  · obtain ⟨hx0, hxw, hy0, hyh⟩ := hin
    have hw0 : 0 ≤ m.w := le_of_lt (lt_of_le_of_lt hx0 hxw)
    have hh0 : 0 ≤ m.h := le_of_lt (lt_of_le_of_lt hy0 hyh)
    unfold distort
    rw [rowFold_colorIndexAt _ _ _ _ (wf_newPaletted hw0 hh0) (by simp [newPaletted]; omega)
      (by simp [newPaletted]; omega)]
    rw [if_pos ⟨hx0, by simp [newPaletted] at *; omega, hy0, by simp [newPaletted] at *; omega⟩,
      if_pos ⟨hx0, hxw, hy0, hyh⟩]
    have hx' : ((x.toNat : Int)) = x := by omega
    have hy' : ((y.toNat : Int)) = y := by omega
    rw [hx', hy']
  · rw [if_neg hin]
    unfold Paletted.colorIndexAt
    rw [if_neg]
    rw [distort_w, distort_h]
    exact hin

/-- C1: for every identifier, digit sequence, width, height and options
value, the rendered `(Raster, Palette)` pair is a function of the seed
stream derived from `(purpose tag, identifier, digits)` alone: two
renders whose seed derivations agree at `(imageSeedPurpose, id, digits)`
produce identical output (identical inputs are the special case
`sf1 = sf2`), so repeated calls with identical inputs are byte-identical
and all randomness flows through that one seed. -/
theorem newImage_deterministic_from_seed
    (sinq cosq : ℚ → ℚ → ℚ) (font : Nat → List Nat)
    (sf1 sf2 : Nat → String → List Nat → Nat → Nat)
    (id : String) (digits : List Nat) (width height : Int) (opts : Option DistortionOpts)
    (hseed : sf1 imageSeedPurpose id digits = sf2 imageSeedPurpose id digits) :
    NewImage sinq cosq font sf1 id digits width height opts =
      NewImage sinq cosq font sf2 id digits width height opts := by
  unfold NewImage
  rw [hseed]

theorem newImage_deterministic_from_seed_witness :
    ((fun _ _ _ _ => 0 : Nat → String → List Nat → Nat → Nat) imageSeedPurpose "abc123" [1, 2, 3]
      = (fun p _ _ n => if p = 1 then 0 else n + 1 : Nat → String → List Nat → Nat → Nat)
        imageSeedPurpose "abc123" [1, 2, 3]) ∧
    NewImage (fun _ _ => 0) (fun _ _ => 0) (fun _ => []) (fun _ _ _ _ => 0)
        "abc123" [1, 2, 3] 240 80 none =
      NewImage (fun _ _ => 0) (fun _ _ => 0) (fun _ => [])
        (fun p _ _ n => if p = 1 then 0 else n + 1) "abc123" [1, 2, 3] 240 80 none := by
  have hseed : (fun _ _ _ _ => 0 : Nat → String → List Nat → Nat → Nat)
      imageSeedPurpose "abc123" [1, 2, 3]
      = (fun p _ _ n => if p = 1 then 0 else n + 1 : Nat → String → List Nat → Nat → Nat)
        imageSeedPurpose "abc123" [1, 2, 3] := by
    funext n
    simp [imageSeedPurpose]
  exact ⟨hseed, newImage_deterministic_from_seed (fun _ _ => 0) (fun _ _ => 0) (fun _ => [])
    (fun _ _ _ _ => 0) (fun p _ _ n => if p = 1 then 0 else n + 1)
    "abc123" [1, 2, 3] 240 80 none hseed⟩

/-- C2: `distort` writes into a freshly allocated grid: every in-bounds
destination pixel `(x, y)` equals the pre-distortion source raster
sampled at `(x + int(amp·sin(y·dx)), y + int(amp·cos(x·dx)))`
(`sin(t·2π/period)`, `cos(t·2π/period)` appear as `sinq per t`,
`cosq per t`), an equation in the source raster `m` alone — so no
destination write can influence any other destination pixel's source
sample; out-of-bounds source coordinates read as palette index 0, never
clamped or wrapped; and the destination grid has the source's
dimensions. -/
theorem distort_fresh_grid_sampling
    (sinq cosq : ℚ → ℚ → ℚ) (m : Paletted) (amp per : ℚ) :
    (∀ x y : Int, 0 ≤ x → x < m.w → 0 ≤ y → y < m.h →
      (distort sinq cosq m amp per).colorIndexAt x y =
        m.colorIndexAt (x + qtrunc (amp * sinq per (y : ℚ)))
          (y + qtrunc (amp * cosq per (x : ℚ)))) ∧
    (∀ x y : Int, ¬(0 ≤ x ∧ x < m.w ∧ 0 ≤ y ∧ y < m.h) → m.colorIndexAt x y = 0) ∧
    (distort sinq cosq m amp per).w = m.w ∧ (distort sinq cosq m amp per).h = m.h := by
  refine ⟨?_, ?_, distort_w sinq cosq m amp per, distort_h sinq cosq m amp per⟩
  · intro x y hx hxw hy hyh
    rw [distort_colorIndexAt, if_pos ⟨hx, hxw, hy, hyh⟩]
  · intro x y hoob
    unfold Paletted.colorIndexAt
    rw [if_neg hoob]

theorem distort_fresh_grid_sampling_witness :
    ((distort (fun _ _ => 0) (fun _ _ => 0) ⟨2, 2, [1, 2, 3, 4]⟩ 0 1).colorIndexAt 1 1 =
      (⟨2, 2, [1, 2, 3, 4]⟩ : Paletted).colorIndexAt
        (1 + qtrunc (0 * 0)) (1 + qtrunc (0 * 0))) ∧
    (⟨2, 2, [1, 2, 3, 4]⟩ : Paletted).colorIndexAt 5 0 = 0 :=
  ⟨(distort_fresh_grid_sampling (fun _ _ => 0) (fun _ _ => 0) ⟨2, 2, [1, 2, 3, 4]⟩ 0 1).1
      1 1 (by decide) (by decide) (by decide) (by decide),
    (distort_fresh_grid_sampling (fun _ _ => 0) (fun _ _ => 0) ⟨2, 2, [1, 2, 3, 4]⟩ 0 1).2.1
      5 0 (by decide)⟩

/-- C9: `distort` with amplitude 0 is the identity on pixel content:
the result keeps the source's dimensions and every pixel (read at any
coordinate whatsoever) agrees with the input raster, for every source
raster, every period, and every model of the trigonometric calls. -/
theorem distort_zero_amplitude_identity
    (sinq cosq : ℚ → ℚ → ℚ) (m : Paletted) (per : ℚ) :
    (distort sinq cosq m 0 per).w = m.w ∧ (distort sinq cosq m 0 per).h = m.h ∧
    ∀ x y : Int, (distort sinq cosq m 0 per).colorIndexAt x y = m.colorIndexAt x y := by
  refine ⟨distort_w sinq cosq m 0 per, distort_h sinq cosq m 0 per, ?_⟩
  intro x y
  rw [distort_colorIndexAt]
  by_cases hin : 0 ≤ x ∧ x < m.w ∧ 0 ≤ y ∧ y < m.h
  · rw [if_pos hin]
    norm_num [qtrunc]
  · rw [if_neg hin]
    unfold Paletted.colorIndexAt
    rw [if_neg hin]

theorem foldlM_option_total {α : Type} {β : Type} (P : α → Prop) (f : α → β → Option α)
    (l : List β) (a : α) (h0 : P a)
    (hstep : ∀ x b, P x → ∃ x', f x b = some x' ∧ P x') :
    ∃ r, l.foldlM f a = some r ∧ P r := by
  induction l generalizing a with
  | nil => exact ⟨a, rfl, h0⟩
  | cons b t ih =>
    obtain ⟨x', hx', hP⟩ := hstep a b h0
    obtain ⟨r, hr, hPr⟩ := ih x' hP
    exact ⟨r, by simp [List.foldlM_cons, hx', hr], hPr⟩

theorem Rng.int_eq_some (r : Rng) {lo hi : Int} (h : lo ≤ hi) :
    r.int lo hi =
      some (lo + ((r.stream r.ctr % (hi + 1 - lo).toNat : Nat) : Int), ⟨r.stream, r.ctr + 1⟩) := by
  unfold Rng.int Rng.intn
  rw [if_neg (by omega)]
  rfl

theorem Rng.int_isSome (r : Rng) {lo hi : Int} (h : lo ≤ hi) :
    ∃ v, r.int lo hi = some (v, ⟨r.stream, r.ctr + 1⟩) :=
  ⟨_, Rng.int_eq_some r h⟩

theorem Rng.int_range {r : Rng} {lo hi v : Int} {r' : Rng}
    (h : r.int lo hi = some (v, r')) :
    lo ≤ v ∧ v ≤ hi ∧ r' = ⟨r.stream, r.ctr + 1⟩ := by
  unfold Rng.int Rng.intn at h
  by_cases hle : hi + 1 - lo ≤ 0
  · rw [if_pos hle] at h
    exact Option.noConfusion h
  · rw [if_neg hle] at h
    have h' := Option.some.inj h
    have hv : lo + ((r.stream r.ctr % (hi + 1 - lo).toNat : Nat) : Int) = v :=
      congrArg Prod.fst h'
    have hr : (⟨r.stream, r.ctr + 1⟩ : Rng) = r' := congrArg Prod.snd h'
    have hn : 0 < (hi + 1 - lo).toNat := by omega
    have hmod : r.stream r.ctr % (hi + 1 - lo).toNat < (hi + 1 - lo).toNat :=
      Nat.mod_lt _ hn
    exact ⟨by omega, by omega, hr.symm⟩

theorem Rng.intn_range {r : Rng} {n v : Int} {r' : Rng}
    (h : r.intn n = some (v, r')) :
    0 ≤ v ∧ v < n ∧ r' = ⟨r.stream, r.ctr + 1⟩ := by
  unfold Rng.intn at h
  by_cases hle : n ≤ 0
  · rw [if_pos hle] at h
    exact Option.noConfusion h
  · rw [if_neg hle] at h
    have h' := Option.some.inj h
    have hv : ((r.stream r.ctr % n.toNat : Nat) : Int) = v := congrArg Prod.fst h'
    have hr : (⟨r.stream, r.ctr + 1⟩ : Rng) = r' := congrArg Prod.snd h'
    have hn : 0 < n.toNat := by omega
    have hmod : r.stream r.ctr % n.toNat < n.toNat := Nat.mod_lt _ hn
    exact ⟨by omega, by omega, hr.symm⟩

theorem Rng.intn_eq_some (r : Rng) {n : Int} (h : 0 < n) :
    r.intn n = some (((r.stream r.ctr % n.toNat : Nat) : Int), ⟨r.stream, r.ctr + 1⟩) := by
  unfold Rng.intn
  rw [if_neg (by omega)]

theorem goDiv_nonneg {a b : Int} (ha : 0 ≤ a) (hb : 0 ≤ b) : 0 ≤ goDiv a b :=
  Int.tdiv_nonneg ha hb

theorem goDiv_eq_ediv {a b : Int} (ha : 0 ≤ a) (hb : 0 ≤ b) : goDiv a b = a / b := by
  lift a to ℕ using ha
  lift b to ℕ using hb
  rfl

theorem goDiv_third {a : Int} (ha : 0 ≤ a) :
    0 ≤ goDiv a 3 ∧ goDiv a 3 + goDiv a 3 ≤ a := by
  have h1 : goDiv a 3 = a / 3 := goDiv_eq_ediv ha (by norm_num)
  have h2 := Int.ediv_add_emod a 3
  have h3 : 0 ≤ a % 3 := Int.emod_nonneg a (by norm_num)
  have h4 : 0 ≤ a / 3 := Int.ediv_nonneg ha (by norm_num)
  omega

theorem min3_le (x y z : Nat) : min3 x y z ≤ x ∧ min3 x y z ≤ y ∧ min3 x y z ≤ z := by
  simp only [min3]
  split_ifs <;> omega

theorem le_max3 (x y z : Nat) : x ≤ max3 x y z ∧ y ≤ max3 x y z ∧ z ≤ max3 x y z := by
  simp only [max3]
  split_ifs <;> omega

theorem foldlM_option_total_count {α : Type} {β : Type} (P : α → Prop) (size : α → Nat)
    (f : α → β → Option α) (l : List β) (a : α) (h0 : P a)
    (hstep : ∀ x b, P x → ∃ x', f x b = some x' ∧ P x' ∧ size x' = size x + 1) :
    ∃ r, l.foldlM f a = some r ∧ P r ∧ size r = size a + l.length := by
  induction l generalizing a with
  | nil => exact ⟨a, rfl, h0, rfl⟩
  | cons b t ih =>
    obtain ⟨x', hx', hP, hsz⟩ := hstep a b h0
    obtain ⟨r, hr, hPr, hszr⟩ := ih x' hP
    refine ⟨r, by simp [List.foldlM_cons, hx', hr], hPr, ?_⟩
    rw [hszr, hsz]
    simp [List.length_cons]
    omega

theorem sameShape_digitRow (digit : List Nat) (dotSize r x y : Int) (yo : Nat) (m : Paletted) :
    sameShape m (digitRow digit dotSize r x y yo m) := by
  unfold digitRow
  refine foldl_preserve (sameShape m) _ _ _ (sameShape_refl m) (fun u b hu => ?_)
  split
  · exact sameShape_trans hu (sameShape_drawCircle _ _ _ _ _)
  · exact hu

theorem drawDigit_some (digit : List Nat) (dotSize : Int) (m : Paletted) (rng : Rng)
    (x y : Int) (maxSkew : ℚ) (hd : 0 ≤ dotSize) :
    ∃ m' rng', drawDigit digit dotSize m rng x y maxSkew = some (m', rng') ∧
      sameShape m m' ∧ rng'.stream = rng.stream := by
  have hr : 0 ≤ goDiv dotSize 2 := goDiv_nonneg hd (by norm_num)
  unfold drawDigit digitJitter
  rw [Rng.float, Rng.float01]
  dsimp only
  rw [Rng.int_eq_some _ (by omega)]
  simp only [Option.bind_eq_bind, Option.some_bind]
  refine ⟨_, _, rfl, ?_, rfl⟩
  exact foldl_preserve (fun st : Paletted × Int × ℚ => sameShape m st.1) _ _ _
    (sameShape_refl m)
    (fun st b hst => sameShape_trans hst (sameShape_digitRow _ _ _ _ _ _ _))

theorem strikeColumn_some (sinq cosq : ℚ → ℚ → ℚ) (d y : Int) (amp per : ℚ)
    (hd : 0 ≤ d) (st : Paletted × Rng) (xn : Nat) :
    ∃ st', strikeColumn sinq cosq d y amp per st xn = some st' ∧
      sameShape st.1 st'.1 ∧ st'.2.stream = st.2.stream := by
  obtain ⟨m, rng⟩ := st
  unfold strikeColumn
  dsimp only
  rw [Rng.int_eq_some _ (goDiv_nonneg (by omega) (by norm_num))]
  simp only [Option.bind_eq_bind, Option.some_bind]
  refine foldlM_option_total
    (fun st2 : Paletted × Rng => sameShape m st2.1 ∧ st2.2.stream = rng.stream) _ _ _
    ⟨sameShape_refl m, rfl⟩ ?_
  intro st2 b hst2
  obtain ⟨m2, rng2⟩ := st2
  dsimp only
  obtain ⟨v, hv⟩ := Rng.int_isSome rng2 hd
  rw [hv]
  simp only [Option.bind_eq_bind, Option.some_bind]
  exact ⟨_, rfl, sameShape_trans hst2.1 (sameShape_drawCircle _ _ _ _ _), hst2.2⟩

theorem strikeThrough_some (sinq cosq : ℚ → ℚ → ℚ) (d : Int) (m : Paletted) (rng : Rng)
    (aM aX pM pX : ℚ) (hd : 0 ≤ d) (hh : 0 ≤ m.h) :
    ∃ st', strikeThrough sinq cosq d m rng aM aX pM pX = some st' ∧
      sameShape m st'.1 ∧ st'.2.stream = rng.stream := by
  unfold strikeThrough
  dsimp only
  have h3 := goDiv_third hh
  rw [Rng.int_eq_some _ (by omega)]
  simp only [Option.bind_eq_bind, Option.some_bind]
  dsimp only [Rng.float, Rng.float01]
  refine foldlM_option_total
    (fun st : Paletted × Rng => sameShape m st.1 ∧ st.2.stream = rng.stream) _ _ _
    ⟨sameShape_refl m, rfl⟩ ?_
  intro st b hst
  obtain ⟨st', h1, h2, h4⟩ := strikeColumn_some sinq cosq d _ _ _ hd st b
  exact ⟨st', h1, sameShape_trans hst.1 h2, by rw [h4, hst.2]⟩

theorem fillWithCircles_some (m : Paletted) (rng : Rng) (n mr : Int)
    (hn : 2 ≤ n) (hmr : 1 ≤ mr) (hw : 2 * mr ≤ m.w) (hh : 2 * mr ≤ m.h) :
    ∃ st', fillWithCircles m rng n mr = some st' ∧
      sameShape m st'.1 ∧ st'.2.stream = rng.stream := by
  unfold fillWithCircles
  refine foldlM_option_total
    (fun st : Paletted × Rng => sameShape m st.1 ∧ st.2.stream = rng.stream) _ _ _
    ⟨sameShape_refl m, rfl⟩ ?_
  intro st b hst
  obtain ⟨m0, rng0⟩ := st
  obtain ⟨hsh0, hstr0⟩ := hst
  dsimp only
  unfold fillStep
  dsimp only
  obtain ⟨ci, hci⟩ := Rng.int_isSome rng0 (show (1 : Int) ≤ n - 1 by omega)
  rw [hci]
  simp only [Option.bind_eq_bind, Option.some_bind]
  obtain ⟨r, hr⟩ := Rng.int_isSome _ (show (1 : Int) ≤ mr by omega)
  rw [hr]
  simp only [Option.some_bind]
  obtain ⟨h1r, hrmr, _⟩ := Rng.int_range hr
  have hww : m0.w = m.w := hsh0.1
  have hhh : m0.h = m.h := hsh0.2.1
  have hwx : r ≤ m0.w - r := by omega
  have hwy : r ≤ m0.h - r := by omega
  obtain ⟨cx, hcx⟩ := Rng.int_isSome _ hwx
  rw [hcx]
  simp only [Option.some_bind]
  obtain ⟨cy, hcy⟩ := Rng.int_isSome _ hwy
  rw [hcy]
  simp only [Option.some_bind]
  exact ⟨_, rfl, sameShape_trans hsh0 (sameShape_drawCircle _ _ _ _ _), hstr0⟩

theorem u8_eq {v : Int} (h0 : 0 ≤ v) (h1 : v < 256) : (u8 v : Int) = v := by
  show (((v % 256).toNat : Nat) : Int) = v
  omega

theorem randomBrightness_spec (rng : Rng) (c : RGBA) (hmax : max3 c.r c.g c.b < 255) :
    ∃ c' : RGBA, randomBrightness rng c 255 = some (c', ⟨rng.stream, rng.ctr + 1⟩) ∧
      c'.a = c.a ∧
      ∃ n : Int, (c'.r : Int) = (c.r : Int) + n ∧ (c'.g : Int) = (c.g : Int) + n ∧
        (c'.b : Int) = (c.b : Int) + n := by
  have hmin1 := min3_le c.r c.g c.b
  have hmax1 := le_max3 c.r c.g c.b
  unfold randomBrightness
  rw [if_neg (by omega)]
  dsimp only
  rw [Rng.intn_eq_some _ (by omega)]
  simp only [Option.bind_eq_bind, Option.some_bind]
  have hmodlt :
      rng.stream rng.ctr % (((255 : Nat) : Int) - (max3 c.r c.g c.b : Int)).toNat
        < (((255 : Nat) : Int) - (max3 c.r c.g c.b : Int)).toNat :=
    Nat.mod_lt _ (by omega)
  refine ⟨_, rfl, rfl, ?_⟩
  refine ⟨((rng.stream rng.ctr % (((255 : Nat) : Int) - (max3 c.r c.g c.b : Int)).toNat : Nat) : Int)
    - (min3 c.r c.g c.b : Int), ?_, ?_, ?_⟩ <;>
  · dsimp only
    rw [u8_eq (by omega) (by omega)]

theorem getD_cons_two {α : Type} (a b : α) (l : List α) (n : Nat) (d : α) :
    (a :: b :: l).getD (n + 2) d = l.getD n d := rfl

theorem getD_cons_one {α : Type} (a b : α) (l : List α) (d : α) :
    (a :: b :: l).getD 1 d = b := rfl

theorem paletteVariants_spec (prim : RGBA) (hmax : max3 prim.r prim.g prim.b < 255)
    (k : Nat) (rng0 : Rng) :
    ∃ v : List RGBA × Rng,
      (List.range k).foldlM
        (fun (acc : List RGBA × Rng) _ => do
          let (c, rng') ← randomBrightness acc.2 prim 255
          pure (acc.1 ++ [c], rng'))
        (([] : List RGBA), rng0) = some v ∧
      (∀ c' ∈ v.1, c'.a = prim.a ∧ ∃ n : Int, (c'.r : Int) = (prim.r : Int) + n ∧
        (c'.g : Int) = (prim.g : Int) + n ∧ (c'.b : Int) = (prim.b : Int) + n) ∧
      v.2.stream = rng0.stream ∧ v.1.length = k := by
  obtain ⟨v, h1, ⟨hmem, hstream⟩, hcnt⟩ :=
    foldlM_option_total_count
      (fun acc : List RGBA × Rng =>
        (∀ c' ∈ acc.1, c'.a = prim.a ∧ ∃ n : Int, (c'.r : Int) = (prim.r : Int) + n ∧
          (c'.g : Int) = (prim.g : Int) + n ∧ (c'.b : Int) = (prim.b : Int) + n) ∧
        acc.2.stream = rng0.stream)
      (fun acc : List RGBA × Rng => acc.1.length)
      (fun acc _ => do
        let (c, rng') ← randomBrightness acc.2 prim 255
        pure (acc.1 ++ [c], rng'))
      (List.range k) (([] : List RGBA), rng0) ⟨by simp, rfl⟩
      (fun x b hx => by
        obtain ⟨lst, rngx⟩ := x
        obtain ⟨hmem, hstr⟩ := hx
        obtain ⟨c', hcEq, hca, hdelta⟩ := randomBrightness_spec rngx prim hmax
        refine ⟨(lst ++ [c'], (⟨rngx.stream, rngx.ctr + 1⟩ : Rng)), ?_, ⟨?_, ?_⟩, ?_⟩
        · dsimp only
          rw [hcEq]
          simp only [Option.bind_eq_bind, Option.some_bind]
          rfl
        · intro c2 hc2
          rcases List.mem_append.mp hc2 with h | h
          · exact hmem c2 h
          · rcases List.mem_singleton.mp h with rfl
            exact ⟨hca, hdelta⟩
        · exact hstr
        · simp)
  refine ⟨v, h1, hmem, hstream, ?_⟩
  simpa using hcnt

theorem getRandomPalette_spec (rng : Rng) (cc : Int) (hcc : 1 ≤ cc) :
    ∃ p rng', getRandomPalette rng cc = some (p, rng') ∧
      rng'.stream = rng.stream ∧
      p.length = cc.toNat + 1 ∧
      p.getD 0 default = ⟨255, 255, 255, 0⟩ ∧
      p.getD 1 default = ⟨rng.stream rng.ctr % 129, rng.stream (rng.ctr + 1) % 129,
        rng.stream (rng.ctr + 2) % 129, 255⟩ ∧
      ∀ i, 2 ≤ i → i ≤ cc.toNat →
        (p.getD i default).a = 255 ∧
        ∃ n : Int, ((p.getD i default).r : Int) = ((p.getD 1 default).r : Int) + n ∧
          ((p.getD i default).g : Int) = ((p.getD 1 default).g : Int) + n ∧
          ((p.getD i default).b : Int) = ((p.getD 1 default).b : Int) + n := by
  unfold getRandomPalette
  rw [if_neg (by omega)]
  dsimp only
  rw [Rng.intn_eq_some rng (by norm_num)]
  simp only [Option.bind_eq_bind, Option.some_bind]
  rw [Rng.intn_eq_some _ (by norm_num)]
  simp only [Option.some_bind]
  rw [Rng.intn_eq_some _ (by norm_num)]
  simp only [Option.some_bind]
  have hprimmax : max3 (((rng.stream rng.ctr % (129 : Int).toNat : Nat) : Int)).toNat
      (((rng.stream (rng.ctr + 1) % (129 : Int).toNat : Nat) : Int)).toNat
      (((rng.stream (rng.ctr + 1 + 1) % (129 : Int).toNat : Nat) : Int)).toNat < 255 := by
    have h1 : rng.stream rng.ctr % (129 : Int).toNat < 129 := Nat.mod_lt _ (by norm_num)
    have h2 : rng.stream (rng.ctr + 1) % (129 : Int).toNat < 129 := Nat.mod_lt _ (by norm_num)
    have h3 : rng.stream (rng.ctr + 1 + 1) % (129 : Int).toNat < 129 := Nat.mod_lt _ (by norm_num)
    have := le_max3 (((rng.stream rng.ctr % (129 : Int).toNat : Nat) : Int)).toNat
      (((rng.stream (rng.ctr + 1) % (129 : Int).toNat : Nat) : Int)).toNat
      (((rng.stream (rng.ctr + 1 + 1) % (129 : Int).toNat : Nat) : Int)).toNat
    simp only [max3] at *
    split_ifs at * <;> omega
  obtain ⟨v, hfold, hmem, hstream, hlen⟩ :=
    paletteVariants_spec
      (⟨(((rng.stream rng.ctr % (129 : Int).toNat : Nat) : Int)).toNat,
        (((rng.stream (rng.ctr + 1) % (129 : Int).toNat : Nat) : Int)).toNat,
        (((rng.stream (rng.ctr + 1 + 1) % (129 : Int).toNat : Nat) : Int)).toNat, 0xFF⟩ : RGBA)
      hprimmax (cc - 1).toNat (⟨rng.stream, rng.ctr + 1 + 1 + 1⟩ : Rng)
  obtain ⟨variants, rngV⟩ := v
  simp only [Option.bind_eq_bind] at hfold ⊢
  rw [hfold]
  simp only [Option.some_bind]
  refine ⟨_, _, rfl, hstream, ?_, rfl, ?_, ?_⟩
  · simp only [List.length_cons]
    dsimp only at hlen
    omega
  · show RGBA.mk _ _ _ _ = _
    simp only [Int.toNat_natCast]
    rfl
  · intro i h2i hicc
    obtain ⟨i2, rfl⟩ : ∃ i2, i = i2 + 2 := ⟨i - 2, by omega⟩
    have hi2 : i2 < variants.length := by
      dsimp only at hlen
      omega
    simp only [getD_cons_two, getD_cons_one]
    have hmemv : variants.getD i2 default ∈ variants := by
      rw [List.getD_eq_getElem?_getD, List.getElem?_eq_getElem hi2]
      rw [Option.getD_some]
      exact List.getElem_mem hi2
    obtain ⟨ha, n, hr, hg, hb⟩ := hmem _ hmemv
    exact ⟨ha, n, hr, hg, hb⟩

theorem Rng.int_none (r : Rng) {lo hi : Int} (h : hi < lo) : r.int lo hi = none := by
  unfold Rng.int Rng.intn
  rw [if_pos (by omega)]
  rfl

theorem bind_some_step {α β : Type} {x : Option α} {f : α → Option β} {b : β} (a : α)
    (hx : x = some a) (hf : f a = some b) : x >>= f = some b := by
  rw [hx]
  exact hf

theorem isSome_of_eq_some {α : Type} {o : Option α} (v : α) (h : o = some v) :
    o.isSome = true := by
  rw [h]
  rfl

theorem bind_step_to_none {α β : Type} {x : Option α} {f : α → Option β} (a : α)
    (hx : x = some a) (hf : f a = none) : x >>= f = none := by
  rw [hx]
  exact hf

theorem bind_none {α β : Type} {x : Option α} {f : α → Option β} (hx : x = none) :
    x >>= f = none := by
  rw [hx]
  rfl

theorem newImage_empty20_isSome (id : String) :
    (NewImage (fun _ _ => 0) (fun _ _ => 0) (fun _ => []) (fun _ _ _ _ => 0)
      id [] 20 20 none).isSome = true := by
  obtain ⟨pal, rng1, hpal, hstr1, -⟩ :=
    getRandomPalette_spec
      (⟨(fun _ _ _ _ => 0 : Nat → String → List Nat → Nat → Nat) imageSeedPurpose id [], 0⟩ : Rng)
      defaultDistortionOpts.circleCount (by norm_num [defaultDistortionOpts])
  obtain ⟨⟨mS, rngS⟩, hS, hshS, hstrS⟩ :=
    strikeThrough_some (fun _ _ => 0) (fun _ _ => 0) 1 (newPaletted 20 20)
      (⟨rng1.stream, rng1.ctr + 1 + 1⟩ : Rng)
      defaultDistortionOpts.strikeWarp.ampMin defaultDistortionOpts.strikeWarp.ampMax
      defaultDistortionOpts.strikeWarp.periodMin defaultDistortionOpts.strikeWarp.periodMax
      (by norm_num) (by norm_num [newPaletted])
  obtain ⟨stF, hFill, -, -⟩ :=
    fillWithCircles_some
      (distort (fun _ _ => 0) (fun _ _ => 0) mS
        (rngS.float defaultDistortionOpts.canvasWarp.ampMin
          defaultDistortionOpts.canvasWarp.ampMax).1
        (((rngS.float defaultDistortionOpts.canvasWarp.ampMin
            defaultDistortionOpts.canvasWarp.ampMax).2.float
          defaultDistortionOpts.canvasWarp.periodMin
          defaultDistortionOpts.canvasWarp.periodMax).1))
      (((rngS.float defaultDistortionOpts.canvasWarp.ampMin
          defaultDistortionOpts.canvasWarp.ampMax).2.float
        defaultDistortionOpts.canvasWarp.periodMin
        defaultDistortionOpts.canvasWarp.periodMax).2)
      defaultDistortionOpts.circleCount 1 (by norm_num [defaultDistortionOpts]) (by norm_num)
      (by rw [distort_w]
          have := hshS.1
          simp only [newPaletted] at this
          omega)
      (by rw [distort_h]
          have := hshS.2.1
          simp only [newPaletted] at this
          omega)
  refine isSome_of_eq_some (stF.1, pal) ?_
  unfold NewImage
  apply bind_some_step (pal, rng1) hpal
  apply bind_some_step ((1 : Int), (7 : Int), (12 : Int)) (by with_unfolding_all decide)
  apply bind_some_step _ (Rng.int_eq_some rng1 (by decide))
  apply bind_some_step _ (Rng.int_eq_some _ (by decide))
  apply bind_some_step _ (rfl :
    List.foldlM _ (newPaletted 20 20, _, _) ([] : List Nat) = some _)
  apply bind_some_step (mS, rngS) (bind_some_step (mS, rngS) hS rfl)
  apply bind_some_step stF hFill
  rfl

/-- C4 counterexample: the claim says a render with an empty digit
sequence is rejected before any drawing with an error; but `NewImage`
has no error return and no validation — on an empty digit sequence the
full pipeline runs to completion and a finished raster is returned. -/
theorem newImage_empty_digits_not_rejected :
    (NewImage (fun _ _ => 0) (fun _ _ => 0) (fun _ => []) (fun _ _ _ _ => 0)
      "c" [] 20 20 none).isSome = true :=
  newImage_empty20_isSome "c"

/-- C4 (amended): `NewImage` performs no input validation and has no
error return.  An empty digit sequence is not rejected: the pipeline
completes and yields a raster.  Non-positive canvas dimensions are not
rejected either: the render aborts with a panic (modelled `none`) when
the anchor draw `rng.Int(border, maxx-border)` hits an inverted bound —
after the palette has already been built and the layout computed, not
as a pre-drawing validation error. -/
theorem newImage_no_input_validation :
    (NewImage (fun _ _ => 0) (fun _ _ => 0) (fun _ => []) (fun _ _ _ _ => 0)
      "a" [] 20 20 none).isSome = true ∧
    NewImage (fun _ _ => 0) (fun _ _ => 0) (fun _ => []) (fun _ _ _ _ => 0)
      "b" [1, 2, 3] 0 0 none = none := by
  refine ⟨newImage_empty20_isSome "a", ?_⟩
  obtain ⟨pal, rng1, hpal, hstr1, -⟩ :=
    getRandomPalette_spec
      (⟨(fun _ _ _ _ => 0 : Nat → String → List Nat → Nat → Nat) imageSeedPurpose
        "b" [1, 2, 3], 0⟩ : Rng)
      defaultDistortionOpts.circleCount (by norm_num [defaultDistortionOpts])
  unfold NewImage
  apply bind_step_to_none (pal, rng1) hpal
  apply bind_step_to_none ((1 : Int), (-1 : Int), (0 : Int)) (by with_unfolding_all decide)
  apply bind_none (Rng.int_none rng1 (by decide))

/-- C3: for a render with circle count `N ≥ 1` the palette has exactly
`N+1` entries; entry 0 is fully transparent (alpha 0); entry 1 is the
primary color, each of R, G, B drawn by its own `Intn(129)` call (hence
in `[0, 128]`); and every variant entry `2..N` differs from the primary
by a single shared signed delta applied to all three channels, never a
per-channel independent delta.  (For `N ≤ 0` the source panics on
`make`/`p[1]`, so no palette exists at all.) -/
theorem getRandomPalette_structure (rng : Rng) (cc : Int) (hcc : 1 ≤ cc) :
    ∃ p rng', getRandomPalette rng cc = some (p, rng') ∧
      p.length = cc.toNat + 1 ∧
      p.getD 0 default = ⟨0xFF, 0xFF, 0xFF, 0x00⟩ ∧
      p.getD 1 default = ⟨rng.stream rng.ctr % 129, rng.stream (rng.ctr + 1) % 129,
        rng.stream (rng.ctr + 2) % 129, 0xFF⟩ ∧
      (p.getD 1 default).r ≤ 128 ∧ (p.getD 1 default).g ≤ 128 ∧ (p.getD 1 default).b ≤ 128 ∧
      ∀ i, 2 ≤ i → i ≤ cc.toNat →
        ∃ n : Int, ((p.getD i default).r : Int) = ((p.getD 1 default).r : Int) + n ∧
          ((p.getD i default).g : Int) = ((p.getD 1 default).g : Int) + n ∧
          ((p.getD i default).b : Int) = ((p.getD 1 default).b : Int) + n := by
  obtain ⟨p, rng', hsome, hstr, hlen, h0, h1, hvar⟩ := getRandomPalette_spec rng cc hcc
  have hm1 : rng.stream rng.ctr % 129 < 129 := Nat.mod_lt _ (by norm_num)
  have hm2 : rng.stream (rng.ctr + 1) % 129 < 129 := Nat.mod_lt _ (by norm_num)
  have hm3 : rng.stream (rng.ctr + 2) % 129 < 129 := Nat.mod_lt _ (by norm_num)
  refine ⟨p, rng', hsome, hlen, h0, h1, ?_, ?_, ?_, ?_⟩
  · rw [h1]
    dsimp only
    omega
  · rw [h1]
    dsimp only
    omega
  · rw [h1]
    dsimp only
    omega
  · intro i h2 hile
    exact (hvar i h2 hile).2

/-- The border actually used by `calculateSizes`. -/
theorem border5_le {width height : Int} (hw : 0 ≤ width) (hh : 0 ≤ height) :
    0 ≤ (if width > height then goDiv height 5 else goDiv width 5) ∧
    (if width > height then goDiv height 5 else goDiv width 5) * 2 ≤ width ∧
    (if width > height then goDiv height 5 else goDiv width 5) * 2 ≤ height := by
  split
  · have h1 : goDiv height 5 = height / 5 := goDiv_eq_ediv hh (by norm_num)
    have h2 := Int.ediv_add_emod height 5
    have h3 : 0 ≤ height % 5 := Int.emod_nonneg height (by norm_num)
    have h4 : 0 ≤ height / 5 := Int.ediv_nonneg hh (by norm_num)
    omega
  · have h1 : goDiv width 5 = width / 5 := goDiv_eq_ediv hw (by norm_num)
    have h2 := Int.ediv_add_emod width 5
    have h3 : 0 ≤ width % 5 := Int.emod_nonneg width (by norm_num)
    have h4 : 0 ≤ width / 5 := Int.ediv_nonneg hw (by norm_num)
    omega

theorem qtrunc_nonneg {q : ℚ} (h : 0 ≤ q) : qtrunc q = ⌊q⌋ := if_pos h

/-- C5: for every (nonnegative) canvas and positive digit count, the
layout derives the natural cell width `nw = w/nc` from usable width and
the cell height `nh = nw·fh/fw` from the font aspect ratio; it
recomputes the width from the height (`nw = fw/fh · nh` with `nh = h`)
exactly when the derived height exceeds usable height (`nh > h`); the
dot radius is `⌊cellHeight / fontCellHeight⌋` with a minimum of 1; and
the final digit-glyph width is `⌊cellWidth⌋ − dotRadius`. -/
theorem calculateSizes_layout (width height : Int) (ncount : Nat)
    (hw : 0 ≤ width) (hh : 0 ≤ height) (hn : 0 < ncount) :
    ∃ dotSize numWidth numHeight,
      calculateSizes width height ncount = some (dotSize, numWidth, numHeight) ∧
      (let border := if width > height then goDiv height 5 else goDiv width 5
       let w : ℚ := ((width - border * 2 : Int) : ℚ)
       let h : ℚ := ((height - border * 2 : Int) : ℚ)
       let fw : ℚ := (fontWidth : ℚ) + 1
       let fh : ℚ := (fontHeight : ℚ)
       let nw0 := w / (ncount : ℚ)
       let nh0 := nw0 * fh / fw
       let nw := if nh0 > h then fw / fh * h else nw0
       let nh := if nh0 > h then h else nh0
       dotSize = max 1 ⌊nh / fh⌋ ∧ numWidth = ⌊nw⌋ - dotSize ∧ numHeight = ⌊nh⌋) := by
  obtain ⟨hb0, hbw, hbh⟩ := border5_le hw hh
  unfold calculateSizes sizesFrom
  rw [if_neg (by omega)]
  set border := if width > height then goDiv height 5 else goDiv width 5 with hborder
  have hw' : (0 : ℚ) ≤ ((width - border * 2 : Int) : ℚ) := by
    have : (0 : Int) ≤ width - border * 2 := by omega
    exact_mod_cast this
  have hh' : (0 : ℚ) ≤ ((height - border * 2 : Int) : ℚ) := by
    have : (0 : Int) ≤ height - border * 2 := by omega
    exact_mod_cast this
  have hnc : (0 : ℚ) < (ncount : ℚ) := by exact_mod_cast hn
  have hfw : (0 : ℚ) < (fontWidth : ℚ) + 1 := by positivity
  have hfh : (0 : ℚ) < (fontHeight : ℚ) := by norm_num [fontHeight]
  have hnw0 : (0 : ℚ) ≤ ((width - border * 2 : Int) : ℚ) / (ncount : ℚ) :=
    div_nonneg hw' (le_of_lt hnc)
  have hnh0 : (0 : ℚ) ≤ ((width - border * 2 : Int) : ℚ) / (ncount : ℚ) * (fontHeight : ℚ)
      / ((fontWidth : ℚ) + 1) :=
    div_nonneg (mul_nonneg hnw0 (le_of_lt hfh)) (le_of_lt hfw)
  have hfwfh : (0 : ℚ) ≤ (fontWidth : ℚ) + 1 / (fontHeight : ℚ) := by positivity
  dsimp only
  by_cases hcond : ((width - border * 2 : Int) : ℚ) / (ncount : ℚ) * (fontHeight : ℚ)
      / ((fontWidth : ℚ) + 1) > ((height - border * 2 : Int) : ℚ)
  · rw [if_pos hcond, if_pos hcond, if_pos hcond]
    refine ⟨_, _, _, rfl, ?_, ?_, ?_⟩
    · rw [qtrunc_nonneg (by positivity)]
      omega
    · rw [qtrunc_nonneg (by positivity)]
    · rw [qtrunc_nonneg hh']
  · rw [if_neg hcond, if_neg hcond, if_neg hcond]
    refine ⟨_, _, _, rfl, ?_, ?_, ?_⟩
    · rw [qtrunc_nonneg (by positivity)]
      omega
    · rw [qtrunc_nonneg hnw0]
    · rw [qtrunc_nonneg hnh0]

theorem getRandomPalette_structure_witness :
    (1 : Int) ≤ 2 ∧
    (∃ p rng', getRandomPalette ⟨fun _ => 0, 0⟩ 2 = some (p, rng') ∧
      p.length = (2 : Int).toNat + 1 ∧
      p.getD 0 default = ⟨0xFF, 0xFF, 0xFF, 0x00⟩ ∧
      p.getD 1 default = ⟨0 % 129, 0 % 129, 0 % 129, 0xFF⟩ ∧
      (p.getD 1 default).r ≤ 128 ∧ (p.getD 1 default).g ≤ 128 ∧ (p.getD 1 default).b ≤ 128 ∧
      ∀ i, 2 ≤ i → i ≤ (2 : Int).toNat →
        ∃ n : Int, ((p.getD i default).r : Int) = ((p.getD 1 default).r : Int) + n ∧
          ((p.getD i default).g : Int) = ((p.getD 1 default).g : Int) + n ∧
          ((p.getD i default).b : Int) = ((p.getD 1 default).b : Int) + n) :=
  ⟨by decide, getRandomPalette_structure ⟨fun _ => 0, 0⟩ 2 (by decide)⟩

theorem calculateSizes_layout_witness :
    (0 : Int) ≤ 240 ∧ (0 : Int) ≤ 80 ∧ 0 < 3 ∧
    (∃ dotSize numWidth numHeight,
      calculateSizes 240 80 3 = some (dotSize, numWidth, numHeight) ∧
      (let border := if (240 : Int) > 80 then goDiv 80 5 else goDiv 240 5
       let w : ℚ := ((240 - border * 2 : Int) : ℚ)
       let h : ℚ := ((80 - border * 2 : Int) : ℚ)
       let fw : ℚ := (fontWidth : ℚ) + 1
       let fh : ℚ := (fontHeight : ℚ)
       let nw0 := w / ((3 : Nat) : ℚ)
       let nh0 := nw0 * fh / fw
       let nw := if nh0 > h then fw / fh * h else nw0
       let nh := if nh0 > h then h else nh0
       dotSize = max 1 ⌊nh / fh⌋ ∧ numWidth = ⌊nw⌋ - dotSize ∧ numHeight = ⌊nh⌋)) :=
  ⟨by decide, by decide, by decide,
    calculateSizes_layout 240 80 3 (by decide) (by decide) (by decide)⟩

/-- C6 counterexample: the claim requires every background circle's
`center ± radius` to stay within the half-open ranges `[0, width) ×
[0, height)`; but the center draw `Int(r, maxx-r)` is inclusive at
`maxx - r`, so a drawn circle can satisfy `center + radius = width`.
On a 10×10 raster with `maxradius = 1` and a stream that yields 8 for
the third draw, the fill step draws the circle centered at `(9, 1)`
with radius 1 — and `9 + 1 < 10` is false. -/
theorem fillStep_containment_counterexample :
    (fillStep 2 1 (⟨10, 10, List.replicate 100 0⟩,
        ⟨fun i => if i = 2 then 8 else 0, 0⟩)).map Prod.fst
      = some ((⟨10, 10, List.replicate 100 0⟩ : Paletted).drawCircle 9 1 1 1) ∧
    ¬((9 : Int) + 1 < 10) := by
  constructor
  · decide
  · decide

/-- C6 (amended): every background circle drawn by a fill iteration has
radius uniformly drawn in `[1, maxradius]`, a radius-inset center with
`radius ≤ centerX`, `centerX + radius ≤ width` (the disc may touch the
exclusive boundary coordinate `width` itself, whose pixels are silently
clipped — the containment is in the closed ranges `[0, width] ×
[0, height]`, not the half-open ones), and a palette index that is the
`uint8` reduction of a uniform draw in `[1, circleCount−1]` (in
`[1, circleCount−1]` itself whenever `circleCount ≤ 256`); and
`fillWithCircles` is exactly `circleCount` iterations of this step. -/
theorem fillWithCircles_circle_containment (n mr : Int) (m : Paletted) (rng : Rng)
    (m' : Paletted) (rng' : Rng)
    (hstep : fillStep n mr (m, rng) = some (m', rng')) :
    (∃ ci r cx cy,
      m' = m.drawCircle cx cy r (u8 ci) ∧
      1 ≤ r ∧ r ≤ mr ∧
      r ≤ cx ∧ cx + r ≤ m.w ∧ r ≤ cy ∧ cy + r ≤ m.h ∧
      1 ≤ ci ∧ ci ≤ n - 1 ∧ u8 ci ≤ 255 ∧ ((u8 ci : Int) ≤ n - 1) ∧
      (n ≤ 256 → 1 ≤ u8 ci ∧ (u8 ci : Int) ≤ n - 1)) ∧
    fillWithCircles m rng n mr
      = (List.range n.toNat).foldlM (fun acc _ => fillStep n mr acc) (m, rng) := by
  refine ⟨?_, rfl⟩
  unfold fillStep at hstep
  dsimp only at hstep
  simp only [Option.bind_eq_bind, Option.bind_eq_some] at hstep
  obtain ⟨⟨ci, rng1⟩, hci, ⟨⟨r, rng2⟩, hr, ⟨⟨cx, rng3⟩, hcx, ⟨⟨cy, rng4⟩, hcy, hpure⟩⟩⟩⟩ := hstep
  obtain ⟨hci1, hci2, -⟩ := Rng.int_range hci
  obtain ⟨hr1, hr2, -⟩ := Rng.int_range hr
  obtain ⟨hcx1, hcx2, -⟩ := Rng.int_range hcx
  obtain ⟨hcy1, hcy2, -⟩ := Rng.int_range hcy
  have hm' : m' = m.drawCircle cx cy r (u8 ci) := by
    have := Option.some.inj hpure
    exact (congrArg Prod.fst this).symm
  have hu8b : u8 ci ≤ 255 := by
    show (ci % 256).toNat ≤ 255
    omega
  have hu8n : (u8 ci : Int) ≤ n - 1 := by
    rcases le_or_lt 256 ci with hbig | hsmall
    · have := hu8b
      omega
    · rw [u8_eq (by omega) hsmall]
      omega
  refine ⟨ci, r, cx, cy, hm', hr1, hr2, hcx1, by omega, hcy1, by omega, hci1, hci2, hu8b, hu8n,
    fun h256 => ?_⟩
  have hlt : ci < 256 := by omega
  constructor
  · have := u8_eq (show (0 : Int) ≤ ci by omega) hlt
    omega
  · rw [u8_eq (by omega) hlt]
    omega

theorem fillWithCircles_circle_containment_witness :
    (∃ ci r cx cy,
      (⟨10, 10, List.replicate 100 0⟩ : Paletted).drawCircle 9 1 1 1
        = (⟨10, 10, List.replicate 100 0⟩ : Paletted).drawCircle cx cy r (u8 ci) ∧
      1 ≤ r ∧ r ≤ 1 ∧
      r ≤ cx ∧ cx + r ≤ (⟨10, 10, List.replicate 100 0⟩ : Paletted).w ∧
      r ≤ cy ∧ cy + r ≤ (⟨10, 10, List.replicate 100 0⟩ : Paletted).h ∧
      1 ≤ ci ∧ ci ≤ 2 - 1 ∧ u8 ci ≤ 255 ∧ ((u8 ci : Int) ≤ 2 - 1) ∧
      ((2 : Int) ≤ 256 → 1 ≤ u8 ci ∧ ((u8 ci : Int) ≤ 2 - 1))) ∧
    fillWithCircles ⟨10, 10, List.replicate 100 0⟩ ⟨fun i => if i = 2 then 8 else 0, 0⟩ 2 1
      = (List.range (2 : Int).toNat).foldlM (fun acc _ => fillStep 2 1 acc)
          (⟨10, 10, List.replicate 100 0⟩, ⟨fun i => if i = 2 then 8 else 0, 0⟩) :=
  fillWithCircles_circle_containment 2 1 ⟨10, 10, List.replicate 100 0⟩
    ⟨fun i => if i = 2 then 8 else 0, 0⟩
    ((⟨10, 10, List.replicate 100 0⟩ : Paletted).drawCircle 9 1 1 1)
    ⟨fun i => if i = 2 then 8 else 0, 4⟩ (by with_unfolding_all rfl)

theorem foldl_filtered_collect_shift {α β : Type} (p : α → Prop) [DecidablePred p] (g : α → β)
    (l : List α) (cs0 : List β) :
    l.foldl (fun cs a => if p a then cs ++ [g a] else cs) cs0
      = cs0 ++ l.foldl (fun cs a => if p a then cs ++ [g a] else cs) [] := by
  induction l generalizing cs0 with
  | nil => simp
  | cons a t ih =>
    simp only [List.foldl_cons]
    by_cases h : p a
    · rw [if_pos h, if_pos h, ih (cs0 ++ [g a]), ih ([] ++ [g a])]
      simp
    · rw [if_neg h, if_neg h]
      exact ih cs0

theorem foldl_filtered_apply {α β γ : Type} (p : α → Prop) [DecidablePred p] (g : α → β)
    (f : γ → β → γ) (l : List α) (m : γ) :
    l.foldl (fun acc a => if p a then f acc (g a) else acc) m
      = (l.foldl (fun cs a => if p a then cs ++ [g a] else cs) []).foldl f m := by
  induction l generalizing m with
  | nil => rfl
  | cons a t ih =>
    simp only [List.foldl_cons]
    by_cases h : p a
    · rw [if_pos h, if_pos h, ih (f m (g a))]
      simp only [List.nil_append]
      rw [foldl_filtered_collect_shift p g t [g a], List.foldl_append]
      rfl
    · rw [if_neg h, if_neg h]
      exact ih m

theorem digitRow_eq_cells (digit : List Nat) (d r x y : Int) (yo : Nat) (m : Paletted) :
    digitRow digit d r x y yo m
      = (digitRowCells digit d x y yo).foldl (fun a c => a.drawCircle c.1 c.2 r 1) m := by
  unfold digitRow digitRowCells
  exact foldl_filtered_apply (fun xo => digit.getD (yo * fontWidth + xo) 0 = blackChar)
    (fun xo => (x + (xo : Int) * d, y + (yo : Int) * d))
    (fun a c => a.drawCircle c.1 c.2 r 1) (List.range fontWidth) m

theorem drawDigit_fold_link (digit : List Nat) (d r y : Int) (skf : ℚ) (l : List Nat) :
    ∀ (m : Paletted) (cs : List (Int × Int)) (x : Int) (xs : ℚ),
    (l.foldl (fun (st : Paletted × Int × ℚ) (yo : Nat) =>
        (digitRow digit d r st.2.1 y yo st.1, qtrunc (st.2.2 + skf), st.2.2 + skf))
      (cs.foldl (fun a c => a.drawCircle c.1 c.2 r 1) m, x, xs)).1
    = ((l.foldl (fun (st : List (Int × Int) × Int × ℚ) (yo : Nat) =>
        (st.1 ++ digitRowCells digit d st.2.1 y yo, qtrunc (st.2.2 + skf), st.2.2 + skf))
      (cs, x, xs)).1).foldl (fun a c => a.drawCircle c.1 c.2 r 1) m := by
  induction l with
  | nil =>
    intro m cs x xs
    rfl
  | cons yo t ih =>
    intro m cs x xs
    simp only [List.foldl_cons]
    rw [digitRow_eq_cells, ← List.foldl_append]
    exact ih m (cs ++ digitRowCells digit d x y yo) (qtrunc (xs + skf)) (xs + skf)

/-- C7 counterexample: the claim says the vertical anchor jitter is a
uniform integer offset in `[-dotRadius, dotRadius]`; the source draws
`Int(-r, r)` with `r = dotSize/2`.  At `dotSize = 4` with raw draw 4,
the source's jitter draw yields 2 while the spec's described draw
`Int(-dotSize, dotSize)` yields 0 — the two draws differ, so the code's
jitter is not the uniform draw over `[-dotRadius, dotRadius]` (its
support is only `[-dotRadius/2, dotRadius/2]`). -/
theorem digitJitter_not_full_range :
    (digitJitter ⟨fun _ => 4, 0⟩ 4).map Prod.fst = some 2 ∧
    (digitJitterSpec ⟨fun _ => 4, 0⟩ 4).map Prod.fst = some 0 ∧
    ¬((2 : Int) = 0) :=
  ⟨by decide, by decide, by decide⟩

/-- C7 (amended): `drawDigit` jitters the vertical anchor exactly once
per glyph, by a uniform integer offset drawn in
`[-dotRadius/2, dotRadius/2]` (half the claimed range, with Go integer
division), and then stamps one filled disc of radius `dotRadius/2` with
palette index 1 for every foreground bitmap cell, at the cell positions
produced by the skew accumulator. -/
theorem drawDigit_jitter_cells (digit : List Nat) (d : Int) (m : Paletted) (rng : Rng)
    (x y : Int) (maxSkew : ℚ) (hd : 0 ≤ d) :
    ∃ j rng',
      digitJitter (rng.float (-maxSkew) maxSkew).2 d = some (j, rng') ∧
      -(goDiv d 2) ≤ j ∧ j ≤ goDiv d 2 ∧
      drawDigit digit d m rng x y maxSkew = some
        ((drawDigitCells digit d x (y + j) (rng.float (-maxSkew) maxSkew).1).foldl
          (fun a c => a.drawCircle c.1 c.2 (goDiv d 2) 1) m, rng') := by
  have hr : 0 ≤ goDiv d 2 := goDiv_nonneg hd (by norm_num)
  have hj := Rng.int_eq_some (⟨rng.stream, rng.ctr + 1⟩ : Rng)
    (show -(goDiv d 2) ≤ goDiv d 2 by omega)
  refine ⟨-(goDiv d 2) + ((rng.stream (rng.ctr + 1)
      % (goDiv d 2 + 1 - -(goDiv d 2)).toNat : Nat) : Int),
    ⟨rng.stream, rng.ctr + 1 + 1⟩, ?_, ?_, ?_, ?_⟩
  · exact hj
  · obtain ⟨h1, h2, -⟩ := Rng.int_range hj
    exact h1
  · obtain ⟨h1, h2, -⟩ := Rng.int_range hj
    exact h2
  · unfold drawDigit digitJitter
    rw [Rng.float, Rng.float01]
    dsimp only
    rw [hj]
    simp only [Option.bind_eq_bind, Option.some_bind]
    unfold drawDigitCells
    nth_rewrite 1 [show m = (([] : List (Int × Int)).foldl
      (fun a c => a.drawCircle c.1 c.2 (goDiv d 2) 1) m) from rfl]
    rw [drawDigit_fold_link]
    rfl

theorem drawDigit_jitter_cells_witness :
    (∃ j rng',
      digitJitter ((⟨fun _ => 0, 0⟩ : Rng).float (-0) 0).2 2 = some (j, rng') ∧
      -(goDiv 2 2) ≤ j ∧ j ≤ goDiv 2 2 ∧
      drawDigit [] 2 ⟨4, 4, List.replicate 16 0⟩ ⟨fun _ => 0, 0⟩ 0 0 0 = some
        ((drawDigitCells [] 2 0 (0 + j) ((⟨fun _ => 0, 0⟩ : Rng).float (-0) 0).1).foldl
          (fun a c => a.drawCircle c.1 c.2 (goDiv 2 2) 1) ⟨4, 4, List.replicate 16 0⟩, rng')) :=
  drawDigit_jitter_cells [] 2 ⟨4, 4, List.replicate 16 0⟩ ⟨fun _ => 0, 0⟩ 0 0 0 (by decide)

theorem bind_eq_some_elim {α β : Type} {x : Option α} {f : α → Option β} {b : β}
    (h : x >>= f = some b) : ∃ a, x = some a ∧ f a = some b := by
  cases x with
  | none => exact Option.noConfusion h
  | some a => exact ⟨a, rfl, h⟩

theorem strikeInner_collect (dd xc ypos d : Int) :
    ∀ (k : Nat) (m2 : Paletted) (rng2 : Rng) (st' : Paletted × Rng),
      (List.range k).foldlM
        (fun (acc2 : Paletted × Rng) (yn : Nat) => do
          let (m3, rng3) := acc2
          let (r, rng3) ← rng3.int 0 dd
          pure (m3.drawCircle xc (ypos + (yn : Int) * d) (goDiv r 2) 1, rng3))
        (m2, rng2) = some st' →
      ∃ rs : List Int, rs.length = k ∧ (∀ r ∈ rs, 0 ≤ r ∧ r ≤ dd) ∧
        st'.1 = rs.enum.foldl
          (fun a kr => a.drawCircle xc (ypos + (kr.1 : Int) * d) (goDiv kr.2 2) 1) m2 := by
  intro k
  induction k with
  | zero =>
    intro m2 rng2 st' h
    simp only [List.range_zero, List.foldlM_nil] at h
    obtain rfl := Option.some.inj h
    exact ⟨[], rfl, by simp, rfl⟩
  | succ k ih =>
    intro m2 rng2 st' h
    rw [List.range_succ, List.foldlM_append] at h
    obtain ⟨mid, hmid, hstep⟩ := bind_eq_some_elim h
    obtain ⟨mmid, rmid⟩ := mid
    obtain ⟨rs, hlen, hmem, hfold⟩ := ih m2 rng2 (mmid, rmid) hmid
    simp only [List.foldlM_cons, List.foldlM_nil, bind_pure] at hstep
    obtain ⟨rp, hrp, hpure⟩ := bind_eq_some_elim hstep
    obtain ⟨r, rng3⟩ := rp
    obtain ⟨hr0, hrdd, -⟩ := Rng.int_range hrp
    dsimp only at hpure
    obtain rfl := Option.some.inj hpure
    refine ⟨rs ++ [r], by simp [hlen], ?_, ?_⟩
    · intro rr hrr
      rcases List.mem_append.mp hrr with hin | hin
      · exact hmem rr hin
      · obtain rfl := List.mem_singleton.mp hin
        exact ⟨hr0, hrdd⟩
    · rw [List.enum_append, List.foldl_append]
      simp only [List.enumFrom, List.foldl_cons, List.foldl_nil]
      dsimp only at hfold ⊢
      rw [← hfold, hlen]

theorem strikeColumn_discs (sinq cosq : ℚ → ℚ → ℚ) (d y : Int) (amp per : ℚ)
    (st st' : Paletted × Rng) (xn : Nat)
    (h : strikeColumn sinq cosq d y amp per st xn = some st') :
    ∃ r0 rng1, st.2.int 0 (goDiv (2 * d) 3) = some (r0, rng1) ∧
      0 ≤ r0 ∧ r0 ≤ goDiv (2 * d) 3 ∧
      ∃ rs : List Int, rs.length = r0.toNat ∧ (∀ r ∈ rs, 0 ≤ r ∧ r ≤ d) ∧
        st'.1 = rs.enum.foldl
          (fun a kr =>
            a.drawCircle ((xn : Int) + qtrunc (amp * cosq per (y : ℚ)))
              (y + qtrunc (amp * sinq per ((xn : Int) : ℚ)) + (kr.1 : Int) * d)
              (goDiv kr.2 2) 1)
          st.1 := by
  obtain ⟨m, rng⟩ := st
  unfold strikeColumn at h
  dsimp only at h
  obtain ⟨p, hp, hfold⟩ := bind_eq_some_elim h
  obtain ⟨r0, rng1⟩ := p
  obtain ⟨h1, h2, -⟩ := Rng.int_range hp
  dsimp only at hfold
  obtain ⟨rs, hlen, hmem, hst⟩ := strikeInner_collect d _ _ d r0.toNat m rng1 st' hfold
  exact ⟨r0, rng1, hp, h1, h2, rs, hlen, hmem, hst⟩

theorem strikeThrough_center_cols (sinq cosq : ℚ → ℚ → ℚ) (d : Int) (m : Paletted)
    (rng : Rng) (aM aX pM pX : ℚ) (hh : 0 ≤ m.h) :
    ∃ y rng1,
      rng.int (goDiv m.h 3) (m.h - goDiv m.h 3) = some (y, rng1) ∧
      goDiv m.h 3 ≤ y ∧ y ≤ m.h - goDiv m.h 3 ∧
      strikeThrough sinq cosq d m rng aM aX pM pX =
        (List.range m.w.toNat).foldlM
          (strikeColumn sinq cosq d y (rng1.float aM aX).1
            ((rng1.float aM aX).2.float pM pX).1)
          (m, ((rng1.float aM aX).2.float pM pX).2) := by
  have h3 := goDiv_third hh
  have hy := Rng.int_eq_some rng (show goDiv m.h 3 ≤ m.h - goDiv m.h 3 by omega)
  obtain ⟨hy1, hy2, -⟩ := Rng.int_range hy
  refine ⟨_, _, hy, hy1, hy2, ?_⟩
  unfold strikeThrough
  dsimp only
  rw [hy]
  simp only [Option.bind_eq_bind, Option.some_bind]

/-- C8: structure of a strike-through pass. (a) The strike center `y`
is drawn in `[maxy/3, maxy - maxy/3]` — the middle third of the canvas
— and the pass is then exactly the left-to-right fold of the per-column
`strikeColumn` step with this single fixed `y` and the amplitude/period
draws that follow it. (b) Each successful column `x` stamps `r0` stacked
discs with `r0` drawn in `[0, 2·dotSize/3]`: the `k`-th disc has a
randomized sub-radius `r ∈ [0, dotSize]`, radius `r/2`, palette index 1,
and center `(x + int(amp·cos(y·dx)), y + int(amp·sin(x·dx)) + k·dotSize)`
— the cosine offset is computed from the original fixed `y`, so the
horizontal displacement is the same constant for every column. -/
theorem strikeThrough_structure :
    (∀ (sinq cosq : ℚ → ℚ → ℚ) (d : Int) (m : Paletted) (rng : Rng) (aM aX pM pX : ℚ),
      0 ≤ m.h →
      ∃ y rng1,
        rng.int (goDiv m.h 3) (m.h - goDiv m.h 3) = some (y, rng1) ∧
        goDiv m.h 3 ≤ y ∧ y ≤ m.h - goDiv m.h 3 ∧
        strikeThrough sinq cosq d m rng aM aX pM pX =
          (List.range m.w.toNat).foldlM
            (strikeColumn sinq cosq d y (rng1.float aM aX).1
              ((rng1.float aM aX).2.float pM pX).1)
            (m, ((rng1.float aM aX).2.float pM pX).2)) ∧
    (∀ (sinq cosq : ℚ → ℚ → ℚ) (d y : Int) (amp per : ℚ) (st st' : Paletted × Rng)
      (xn : Nat),
      strikeColumn sinq cosq d y amp per st xn = some st' →
      ∃ r0 rng1, st.2.int 0 (goDiv (2 * d) 3) = some (r0, rng1) ∧
        0 ≤ r0 ∧ r0 ≤ goDiv (2 * d) 3 ∧
        ∃ rs : List Int, rs.length = r0.toNat ∧ (∀ r ∈ rs, 0 ≤ r ∧ r ≤ d) ∧
          st'.1 = rs.enum.foldl
            (fun a kr =>
              a.drawCircle ((xn : Int) + qtrunc (amp * cosq per (y : ℚ)))
                (y + qtrunc (amp * sinq per ((xn : Int) : ℚ)) + (kr.1 : Int) * d)
                (goDiv kr.2 2) 1)
            st.1) :=
  ⟨fun sinq cosq d m rng aM aX pM pX hh =>
      strikeThrough_center_cols sinq cosq d m rng aM aX pM pX hh,
   fun sinq cosq d y amp per st st' xn h =>
      strikeColumn_discs sinq cosq d y amp per st st' xn h⟩

theorem strikeThrough_structure_witness :
    (∃ y rng1,
      (⟨fun _ => 0, 0⟩ : Rng).int (goDiv (newPaletted 3 3).h 3)
          ((newPaletted 3 3).h - goDiv (newPaletted 3 3).h 3) = some (y, rng1) ∧
      goDiv (newPaletted 3 3).h 3 ≤ y ∧
      y ≤ (newPaletted 3 3).h - goDiv (newPaletted 3 3).h 3 ∧
      strikeThrough (fun _ _ => 0) (fun _ _ => 0) 1 (newPaletted 3 3)
          ⟨fun _ => 0, 0⟩ 0 0 0 0 =
        (List.range (newPaletted 3 3).w.toNat).foldlM
          (strikeColumn (fun _ _ => 0) (fun _ _ => 0) 1 y (rng1.float 0 0).1
            ((rng1.float 0 0).2.float 0 0).1)
          (newPaletted 3 3, ((rng1.float 0 0).2.float 0 0).2)) ∧
    (∃ r0 rng1,
      ((newPaletted 3 3, (⟨fun _ => 0, 0⟩ : Rng)) : Paletted × Rng).2.int 0
          (goDiv (2 * 1) 3) = some (r0, rng1) ∧
      0 ≤ r0 ∧ r0 ≤ goDiv (2 * 1) 3 ∧
      ∃ rs : List Int, rs.length = r0.toNat ∧ (∀ r ∈ rs, 0 ≤ r ∧ r ≤ 1) ∧
        ((newPaletted 3 3, (⟨fun _ => 0, 1⟩ : Rng)) : Paletted × Rng).1 =
          rs.enum.foldl
            (fun a kr =>
              a.drawCircle (((0 : Nat) : Int) +
                  qtrunc (0 * (fun _ _ => (0 : ℚ)) 0 (((1 : Int) : Int) : ℚ)))
                (1 + qtrunc (0 * (fun _ _ => (0 : ℚ)) 0 (((0 : Nat) : Int) : ℚ)) +
                  (kr.1 : Int) * 1)
                (goDiv kr.2 2) 1)
            ((newPaletted 3 3, (⟨fun _ => 0, 0⟩ : Rng)) : Paletted × Rng).1) :=
  ⟨strikeThrough_structure.1 (fun _ _ => 0) (fun _ _ => 0) 1 (newPaletted 3 3)
      ⟨fun _ => 0, 0⟩ 0 0 0 0 (by decide),
   strikeThrough_structure.2 (fun _ _ => 0) (fun _ _ => 0) 1 1 0 0
      (newPaletted 3 3, ⟨fun _ => 0, 0⟩) (newPaletted 3 3, ⟨fun _ => 0, 1⟩) 0 rfl⟩

theorem colorIndexAt_le {k : Nat} {m : Paletted} (hm : pixBounded k m) (x y : Int) :
    m.colorIndexAt x y ≤ k := by
  unfold Paletted.colorIndexAt
  split
  · rcases hg : m.pix[(y * m.w + x).toNat]? with _ | v
    · rw [List.getD_eq_getElem?_getD, hg]
      exact Nat.zero_le k
    · rw [List.getD_eq_getElem?_getD, hg]
      exact hm v (List.getElem?_mem hg)
  · exact Nat.zero_le k

theorem pixBounded_distort {k : Nat} (sinq cosq : ℚ → ℚ → ℚ) {m : Paletted}
    (hm : pixBounded k m) (amp per : ℚ) :
    pixBounded k (distort sinq cosq m amp per) := by
  unfold distort
  refine foldl_preserve (pixBounded k) _ _ _ (pixBounded_newPaletted k m.w m.h) ?_
  intro a b ha
  dsimp only
  refine foldl_preserve (pixBounded k) _ _ _ ha ?_
  intro a2 b2 ha2
  exact pixBounded_set ha2 (colorIndexAt_le hm _ _) _ _

theorem pixBounded_digitRow {k : Nat} (hk : 1 ≤ k) (digit : List Nat) (d r x y : Int)
    (yo : Nat) {m : Paletted} (hm : pixBounded k m) :
    pixBounded k (digitRow digit d r x y yo m) := by
  unfold digitRow
  refine foldl_preserve (pixBounded k) _ _ _ hm ?_
  intro a b ha
  dsimp only
  split
  · exact pixBounded_drawCircle ha hk _ _ _
  · exact ha

theorem pixBounded_drawDigit {k : Nat} (hk : 1 ≤ k) {digit : List Nat} {d : Int}
    {m : Paletted} {rng : Rng} {x y : Int} {sk : ℚ} {st' : Paletted × Rng}
    (hm : pixBounded k m) (h : drawDigit digit d m rng x y sk = some st') :
    pixBounded k st'.1 := by
  unfold drawDigit at h
  dsimp only [Rng.float] at h
  obtain ⟨jp, hj, hpure⟩ := bind_eq_some_elim h
  obtain ⟨j, rngj⟩ := jp
  dsimp only at hpure
  obtain rfl := Option.some.inj hpure
  exact foldl_preserve (fun s : Paletted × Int × ℚ => pixBounded k s.1) _ _ _ hm
    (fun s b hs => pixBounded_digitRow hk _ _ _ _ _ _ hs)

theorem pixBounded_strikeColumn {k : Nat} (hk : 1 ≤ k) {sinq cosq : ℚ → ℚ → ℚ}
    {d y : Int} {amp per : ℚ} {st st' : Paletted × Rng} {xn : Nat}
    (hm : pixBounded k st.1) (h : strikeColumn sinq cosq d y amp per st xn = some st') :
    pixBounded k st'.1 := by
  obtain ⟨r0, rng1, -, -, -, rs, -, -, hst⟩ :=
    strikeColumn_discs sinq cosq d y amp per st st' xn h
  rw [hst]
  exact foldl_preserve (pixBounded k) _ _ _ hm
    (fun a b ha => pixBounded_drawCircle ha hk _ _ _)

theorem pixBounded_strikeThrough {k : Nat} (hk : 1 ≤ k) {sinq cosq : ℚ → ℚ → ℚ}
    {d : Int} {m : Paletted} {rng : Rng} {aM aX pM pX : ℚ} {st' : Paletted × Rng}
    (hm : pixBounded k m) (h : strikeThrough sinq cosq d m rng aM aX pM pX = some st') :
    pixBounded k st'.1 := by
  unfold strikeThrough at h
  dsimp only at h
  obtain ⟨yp, hy, hrest⟩ := bind_eq_some_elim h
  obtain ⟨y, rng1⟩ := yp
  dsimp only [Rng.float] at hrest
  refine foldlM_option_preserve (fun s : Paletted × Rng => pixBounded k s.1) _ _ _
    hm ?_ st' hrest
  intro s b s' hs hstep
  exact pixBounded_strikeColumn hk hs hstep

theorem pixBounded_fillStep {k : Nat} {n maxradius : Int} (hn : n.toNat - 1 ≤ k)
    {st st' : Paletted × Rng} (hm : pixBounded k st.1)
    (h : fillStep n maxradius st = some st') : pixBounded k st'.1 := by
  obtain ⟨m, rng⟩ := st
  unfold fillStep at h
  dsimp only at h
  obtain ⟨p1, hp1, h⟩ := bind_eq_some_elim h
  obtain ⟨ci, rng1⟩ := p1
  dsimp only at h
  obtain ⟨p2, hp2, h⟩ := bind_eq_some_elim h
  obtain ⟨r, rng2⟩ := p2
  dsimp only at h
  obtain ⟨p3, hp3, h⟩ := bind_eq_some_elim h
  obtain ⟨cx, rng3⟩ := p3
  dsimp only at h
  obtain ⟨p4, hp4, h⟩ := bind_eq_some_elim h
  obtain ⟨cy, rng4⟩ := p4
  dsimp only at h
  obtain rfl := Option.some.inj h
  obtain ⟨h1, h2, -⟩ := Rng.int_range hp1
  refine pixBounded_drawCircle hm ?_ _ _ _
  show (ci % 256).toNat ≤ k
  omega

theorem pixBounded_fillWithCircles {k : Nat} {n maxradius : Int} (hn : n.toNat - 1 ≤ k)
    {m : Paletted} {rng : Rng} {st' : Paletted × Rng}
    (hm : pixBounded k m) (h : fillWithCircles m rng n maxradius = some st') :
    pixBounded k st'.1 := by
  unfold fillWithCircles at h
  refine foldlM_option_preserve (fun s : Paletted × Rng => pixBounded k s.1) _ _ _
    hm ?_ st' h
  intro s b s' hs hstep
  exact pixBounded_fillStep hn hs hstep

theorem newImage_pixBounded (sinq cosq : ℚ → ℚ → ℚ) (font : Nat → List Nat)
    (seedFn : Nat → String → List Nat → Nat → Nat) (id : String) (digits : List Nat)
    (width height : Int) (optsIn : Option DistortionOpts)
    (hcc : 2 ≤ (optsIn.getD defaultDistortionOpts).circleCount) :
    ∀ p ∈ pixOf (NewImage sinq cosq font seedFn id digits width height optsIn),
      p ≤ (optsIn.getD defaultDistortionOpts).circleCount.toNat := by
  intro p hp
  rcases hN : NewImage sinq cosq font seedFn id digits width height optsIn with _ | pr
  · rw [hN] at hp
    exact absurd hp (by simp [pixOf])
  · rw [hN] at hp
    have hp' : p ∈ pr.1.pix := hp
    have hone : 1 ≤ (optsIn.getD defaultDistortionOpts).circleCount.toNat := by omega
    unfold NewImage at hN
    dsimp only at hN
    obtain ⟨pp, hpal, hN⟩ := bind_eq_some_elim hN
    obtain ⟨palette, rng1⟩ := pp
    dsimp only at hN
    obtain ⟨sz, hsz, hN⟩ := bind_eq_some_elim hN
    obtain ⟨dotSize, numWidth, numHeight⟩ := sz
    dsimp only at hN
    obtain ⟨xp, hx, hN⟩ := bind_eq_some_elim hN
    obtain ⟨x, rng2⟩ := xp
    dsimp only at hN
    obtain ⟨yp, hy, hN⟩ := bind_eq_some_elim hN
    obtain ⟨y, rng3⟩ := yp
    dsimp only at hN
    obtain ⟨st, hdig, hN⟩ := bind_eq_some_elim hN
    obtain ⟨dm, dx, drng⟩ := st
    dsimp only at hN
    obtain ⟨st2, hstrike, hN⟩ := bind_eq_some_elim hN
    obtain ⟨sm, srng⟩ := st2
    dsimp only [Rng.float] at hN
    obtain ⟨fp, hfill, hN⟩ := bind_eq_some_elim hN
    obtain ⟨fm, frng⟩ := fp
    dsimp only at hN
    obtain rfl := Option.some.inj hN
    have hdigB : pixBounded (optsIn.getD defaultDistortionOpts).circleCount.toNat dm := by
      refine foldlM_option_preserve
        (fun s : Paletted × Int × Rng =>
          pixBounded (optsIn.getD defaultDistortionOpts).circleCount.toNat s.1) _ _ _
        (pixBounded_newPaletted _ width height) ?_ (dm, dx, drng) hdig
      intro s n s' hs hsome
      obtain ⟨dp, hdp, hpure⟩ := bind_eq_some_elim hsome
      obtain ⟨m2, rng2'⟩ := dp
      dsimp only at hpure
      obtain rfl := Option.some.inj hpure
      exact pixBounded_drawDigit hone hs hdp
    have hstrB : pixBounded (optsIn.getD defaultDistortionOpts).circleCount.toNat sm := by
      refine foldlM_option_preserve
        (fun s : Paletted × Rng =>
          pixBounded (optsIn.getD defaultDistortionOpts).circleCount.toNat s.1) _ _ _
        hdigB ?_ (sm, srng) hstrike
      intro s n s' hs hsome
      exact pixBounded_strikeThrough hone hs hsome
    have hfillB : pixBounded (optsIn.getD defaultDistortionOpts).circleCount.toNat fm :=
      pixBounded_fillWithCircles (by omega)
        (pixBounded_distort sinq cosq hstrB _ _) hfill
    exact hfillB p hp'

/-- C10 counterexample: the claim says background circles write only
indices in `[1, circleCount-1]`.  With `circleCount = 257` the colour
draw `Int(1, 256)` can return 256, whose `uint8` reduction is 0: this
fill iteration stamps the transparent index 0, erasing previously drawn
index-1 pixels — yet the written index is still inside the palette,
which is the invariant the amended claim keeps. -/
theorem fillStep_color_wrap_counterexample :
    u8 256 = 0 ∧
    fillStep 257 1 ((⟨3, 3, List.replicate 9 1⟩ : Paletted),
        ⟨fun i => if i = 0 then 255 else 0, 0⟩) =
      some (⟨3, 3, [1, 0, 1, 0, 0, 0, 1, 0, 1]⟩,
        ⟨fun i => if i = 0 then 255 else 0, 4⟩) :=
  ⟨rfl, rfl⟩

/-- C10: the raster holds only valid palette indices at every pipeline
stage.  The blank raster is all index 0; `drawDigit` and `strikeThrough`
write only index 1, so they preserve any pixel bound `k ≥ 1`;
`fillWithCircles` writes only `uint8(Int(1, n-1))`, which never exceeds
`n - 1` (below 256 the `uint8` conversion is the identity on the draw,
above it the result is at most 255 < n - 1), so it preserves any bound
`k ≥ n - 1`; `distort` only copies source pixels (or 0 for out-of-bounds
samples), preserving every bound; hence every pixel of a finished render
with `circleCount ≥ 2` is at most `circleCount`, a valid index into the
`circleCount + 1`-entry palette. -/
theorem newImage_palette_index_invariant :
    (∀ w h : Int, pixBounded 0 (newPaletted w h)) ∧
    (∀ (k : Nat), 1 ≤ k → ∀ (digit : List Nat) (d : Int) (m : Paletted) (rng : Rng)
      (x y : Int) (sk : ℚ) (st' : Paletted × Rng),
      pixBounded k m → drawDigit digit d m rng x y sk = some st' →
      pixBounded k st'.1) ∧
    (∀ (k : Nat), 1 ≤ k → ∀ (sinq cosq : ℚ → ℚ → ℚ) (d : Int) (m : Paletted) (rng : Rng)
      (aM aX pM pX : ℚ) (st' : Paletted × Rng),
      pixBounded k m → strikeThrough sinq cosq d m rng aM aX pM pX = some st' →
      pixBounded k st'.1) ∧
    (∀ (k : Nat) (n maxradius : Int), n.toNat - 1 ≤ k →
      ∀ (m : Paletted) (rng : Rng) (st' : Paletted × Rng),
      pixBounded k m → fillWithCircles m rng n maxradius = some st' →
      pixBounded k st'.1) ∧
    (∀ (k : Nat) (sinq cosq : ℚ → ℚ → ℚ) (m : Paletted) (amp per : ℚ),
      pixBounded k m → pixBounded k (distort sinq cosq m amp per)) ∧
    (∀ (sinq cosq : ℚ → ℚ → ℚ) (font : Nat → List Nat)
      (seedFn : Nat → String → List Nat → Nat → Nat) (id : String) (digits : List Nat)
      (width height : Int) (optsIn : Option DistortionOpts),
      2 ≤ (optsIn.getD defaultDistortionOpts).circleCount →
      ∀ p ∈ pixOf (NewImage sinq cosq font seedFn id digits width height optsIn),
        p ≤ (optsIn.getD defaultDistortionOpts).circleCount.toNat) :=
  ⟨fun w h => pixBounded_newPaletted 0 w h,
   fun k hk digit d m rng x y sk st' hm h => pixBounded_drawDigit hk hm h,
   fun k hk sinq cosq d m rng aM aX pM pX st' hm h => pixBounded_strikeThrough hk hm h,
   fun k n maxradius hn m rng st' hm h => pixBounded_fillWithCircles hn hm h,
   fun k sinq cosq m amp per hm => pixBounded_distort sinq cosq hm amp per,
   fun sinq cosq font seedFn id digits width height optsIn hcc =>
     newImage_pixBounded sinq cosq font seedFn id digits width height optsIn hcc⟩

set_option maxRecDepth 10000 in
theorem newImage_palette_index_invariant_witness :
    pixBounded 0 (newPaletted 2 2) ∧
    pixBounded 1 ((newPaletted 1 1, (⟨fun _ => 0, 2⟩ : Rng)) : Paletted × Rng).1 ∧
    pixBounded 1 ((newPaletted 3 3, (⟨fun _ => 0, 6⟩ : Rng)) : Paletted × Rng).1 ∧
    pixBounded 1
      (((⟨3, 3, [0, 1, 0, 1, 1, 1, 0, 1, 0]⟩ : Paletted),
        (⟨fun _ => 0, 8⟩ : Rng)) : Paletted × Rng).1 ∧
    pixBounded 1 (distort (fun _ _ => 0) (fun _ _ => 0) (newPaletted 2 2) 0 0) ∧
    (∀ p ∈ pixOf (NewImage (fun _ _ => 0) (fun _ _ => 0) (fun _ => [])
        (fun _ _ _ _ => 0 : Nat → String → List Nat → Nat → Nat) "w" [] 20 20 none),
      p ≤ ((none : Option DistortionOpts).getD defaultDistortionOpts).circleCount.toNat) :=
  ⟨newImage_palette_index_invariant.1 2 2,
   newImage_palette_index_invariant.2.1 1 (by decide) [] 1 (newPaletted 1 1)
     ⟨fun _ => 0, 0⟩ 0 0 0 (newPaletted 1 1, ⟨fun _ => 0, 2⟩)
     (pixBounded_newPaletted 1 1 1) (by with_unfolding_all rfl),
   newImage_palette_index_invariant.2.2.1 1 (by decide) (fun _ _ => 0) (fun _ _ => 0) 1
     (newPaletted 3 3) ⟨fun _ => 0, 0⟩ 0 0 0 0 (newPaletted 3 3, ⟨fun _ => 0, 6⟩)
     (pixBounded_newPaletted 1 3 3) (by with_unfolding_all rfl),
   newImage_palette_index_invariant.2.2.2.1 1 2 1 (by decide) (newPaletted 3 3)
     ⟨fun _ => 0, 0⟩ (⟨3, 3, [0, 1, 0, 1, 1, 1, 0, 1, 0]⟩, ⟨fun _ => 0, 8⟩)
     (pixBounded_newPaletted 1 3 3) rfl,
   newImage_palette_index_invariant.2.2.2.2.1 1 (fun _ _ => 0) (fun _ _ => 0)
     (newPaletted 2 2) 0 0 (pixBounded_newPaletted 1 2 2),
   newImage_palette_index_invariant.2.2.2.2.2 (fun _ _ => 0) (fun _ _ => 0) (fun _ => [])
     (fun _ _ _ _ => 0) "w" [] 20 20 none (by decide)⟩

end Captcha
